import Mathlib

/-!
Formal model of the herald repository's rate limiting, caching and retry
logic, shallowly embedded from `src/lol_match_exporter.py` (class
`RateLimiter`, function `request_with_backoff`) and
`src/riot_api_enhanced.py` (classes `LRUCache`, `AdaptiveRateLimiter`,
`EnhancedRiotAPI`).

Conventions of the embedding:
* Python `float` values (times, multipliers, TTLs) are modelled by exact
  rationals `ℚ`; `int(x)` on a nonnegative float is `⌊x⌋.toNat`.
* `time.time()` readings are explicit `now : ℚ` parameters, assumed
  non-decreasing along a trace exactly where a theorem says so.
* Mutable objects are modelled by explicit state passing; a `while True`
  loop is modelled by structural recursion on the list of poll times.
* `collections.deque` and `OrderedDict` are modelled by Lean lists whose
  front is the oldest element.
* The HTTP session is an oracle supplying the response of each attempt.
-/

/-- `Priority` enum from `riot_api_enhanced.py`. -/
inductive Priority where
  | HIGH
  | NORMAL
  | LOW
deriving DecidableEq, Repr

/-- `ApiRequest` dataclass from `riot_api_enhanced.py`.  The payload fields
`method`, `params` and `headers` never influence the control flow modelled
here and are omitted; `url`, `priority`, `timestamp` and `retry_count` are
kept. -/
structure ApiRequest where
  url : String
  priority : Priority
  timestamp : ℚ
  retry_count : ℕ
deriving DecidableEq, Repr

/-- `CacheEntry` from `riot_api_enhanced.py`: on construction
`expires_at = time.time() + ttl_seconds`. -/
structure CacheEntry (V : Type) where
  data : V
  expires_at : ℚ
deriving DecidableEq, Repr

/-- `CacheEntry.is_expired`: `time.time() > self.expires_at`. -/
def CacheEntry.is_expired (e : CacheEntry V) (now : ℚ) : Bool :=
  decide (e.expires_at < now)

/-- `LRUCache` from `riot_api_enhanced.py`.  The `OrderedDict` is a list of
key/entry pairs, front = oldest (least recently used). -/
structure LRUCache (V : Type) where
  cache : List (String × CacheEntry V)
  max_size : ℕ
  hits : ℕ
  misses : ℕ
deriving DecidableEq, Repr

/-- A fresh `LRUCache` (`__init__`). -/
def LRUCache.empty (V : Type) (max_size : ℕ) : LRUCache V :=
  ⟨[], max_size, 0, 0⟩

/-- `OrderedDict.__setitem__`: replace the value in place when the key is
already present, otherwise append at the end. -/
def odAssign (k : String) (e : CacheEntry V) :
    List (String × CacheEntry V) → List (String × CacheEntry V)
  | [] => [(k, e)]
  | p :: rest => if p.1 = k then (k, e) :: rest else p :: odAssign k e rest

/-- `OrderedDict.move_to_end(key)`: move the entry for `key` to the last
position.  (The code only calls it on present keys; on an absent key this
model is the identity.) -/
def odMoveToEnd (k : String) (l : List (String × CacheEntry V)) :
    List (String × CacheEntry V) :=
  match l.find? (fun p => decide (p.1 = k)) with
  | none => l
  | some p => l.filter (fun q => decide (q.1 ≠ k)) ++ [p]

/-- `LRUCache.get`: miss on absent key; expired entries are deleted and
count as a miss; a hit promotes the entry to most-recently-used and
increments `hits`. -/
def LRUCache.get (c : LRUCache V) (now : ℚ) (key : String) :
    Option V × LRUCache V :=
  match c.cache.find? (fun p => decide (p.1 = key)) with
  | none => (none, { c with misses := c.misses + 1 })
  | some p =>
    if p.2.is_expired now then
      (none, { c with cache := c.cache.filter (fun q => decide (q.1 ≠ key)),
                      misses := c.misses + 1 })
    else
      (some p.2.data, { c with cache := odMoveToEnd key c.cache,
                               hits := c.hits + 1 })

/-- `LRUCache.set`: `popitem(last=False)` (drop the front, i.e. the least
recently used entry) when at capacity and the key is new, then assign and
`move_to_end`.  (Python would raise on `popitem` of an empty dict, which
can only happen for `max_size = 0`; the theorems assume `1 ≤ max_size`.) -/
def LRUCache.set (c : LRUCache V) (now : ℚ) (key : String) (value : V)
    (ttl_seconds : ℚ) : LRUCache V :=
  let cache0 :=
    if c.max_size ≤ c.cache.length ∧ key ∉ c.cache.map Prod.fst then
      c.cache.drop 1
    else c.cache
  let entry : CacheEntry V := ⟨value, now + ttl_seconds⟩
  { c with cache := odMoveToEnd key (odAssign key entry cache0) }

/-- Well-formedness of the `OrderedDict` model: keys are distinct. -/
def LRUCache.wf (c : LRUCache V) : Prop :=
  (c.cache.map Prod.fst).Nodup

/-- One externally visible cache operation, for stating the size invariant
over arbitrary operation sequences. -/
inductive COp (V : Type) where
  | set (now : ℚ) (k : String) (v : V) (ttl : ℚ)
  | get (now : ℚ) (k : String)

/-- Apply one cache operation (the value returned by `get` is dropped). -/
def applyOp (c : LRUCache V) : COp V → LRUCache V
  | .set now k v ttl => c.set now k v ttl
  | .get now k => (c.get now k).2

/-- Run a sequence of cache operations. -/
def runOps (c : LRUCache V) : List (COp V) → LRUCache V
  | [] => c
  | op :: ops => runOps (applyOp c op) ops

/-- Insert a list of keys in order (same value and ttl throughout), as in
the LRU-eviction scenario. -/
def insertAll (c : LRUCache V) (now : ℚ) (v : V) (ttl : ℚ) :
    List String → LRUCache V
  | [] => c
  | k :: ks => insertAll (c.set now k v ttl) now v ttl ks

/-- A granted acquisition: the time it was granted at, together with the
effective short/long limits in force at that moment (for the simple
`RateLimiter` these are just its fixed limits). -/
structure Grant where
  time : ℚ
  effS : ℕ
  effL : ℕ
deriving DecidableEq, Repr

/-- Number of grant times falling in the trailing interval `(t - w, t]`. -/
def countWin (gs : List ℚ) (t w : ℚ) : ℕ :=
  (gs.filter (fun g => decide (t - w < g ∧ g ≤ t))).length

/-- Every grant, counted together with the grants before it, respects the
effective limit `eff` that was in force when it was granted. -/
def winBounded (w : ℚ) (eff : Grant → ℕ) (grants : List Grant) : Prop :=
  ∀ pre x post, grants = pre ++ x :: post →
    countWin ((pre ++ [x]).map Grant.time) x.time w ≤ eff x

/-- The largest effective limit among the grants inside `(t - w, t]`. -/
def maxEffWin (w : ℚ) (eff : Grant → ℕ) (grants : List Grant) (t : ℚ) : ℕ :=
  ((grants.filter (fun x => decide (t - w < x.time ∧ x.time ≤ t))).map eff).foldr max 0

/-- `AdaptiveRateLimiter` from `riot_api_enhanced.py`. -/
structure AdaptiveRateLimiter where
  short_limit : ℕ
  short_window : ℚ
  long_limit : ℕ
  long_window : ℚ
  burst_allowance : ℚ
  short_requests : List ℚ
  long_requests : List ℚ
  consecutive_429s : ℕ
  backoff_multiplier : ℚ
  last_429_time : ℚ
deriving DecidableEq, Repr

/-- `AdaptiveRateLimiter.__init__` (constructor defaults in the source are
`20, 1.0, 100, 120.0, 0.1`). -/
def AdaptiveRateLimiter.init (short_limit : ℕ) (short_window : ℚ)
    (long_limit : ℕ) (long_window : ℚ) (burst_allowance : ℚ) :
    AdaptiveRateLimiter :=
  ⟨short_limit, short_window, long_limit, long_window, burst_allowance,
    [], [], 0, 1, 0⟩

/-- The multiplier recomputed at the top of each `acquire` loop iteration:
`min(2.0, 1.0 + consecutive_429s * 0.2)` while failures are active, else
`max(1.0, backoff_multiplier * 0.95)`. -/
def AdaptiveRateLimiter.newMult (rl : AdaptiveRateLimiter) : ℚ :=
  if 0 < rl.consecutive_429s then
    min 2 (1 + (rl.consecutive_429s : ℚ) * 0.2)
  else
    max 1 (rl.backoff_multiplier * 0.95)

/-- `effective_short = int(short_limit / multiplier)`, with the burst
allowance `int(effective_short * (1 + burst_allowance))` for HIGH
priority. -/
def AdaptiveRateLimiter.effShort (rl : AdaptiveRateLimiter)
    (priority : Priority) : ℕ :=
  let e0 : ℕ := (⌊(rl.short_limit : ℚ) / rl.newMult⌋).toNat
  if priority = Priority.HIGH then
    (⌊(e0 : ℚ) * (1 + rl.burst_allowance)⌋).toNat
  else e0

/-- `effective_long = int(long_limit / multiplier)`. -/
def AdaptiveRateLimiter.effLong (rl : AdaptiveRateLimiter) : ℕ :=
  (⌊(rl.long_limit : ℚ) / rl.newMult⌋).toNat

/-- Result of one iteration of the `acquire` loop body. -/
structure AcqAttempt where
  granted : Bool
  effective_short : ℕ
  effective_long : ℕ
  rl : AdaptiveRateLimiter
deriving DecidableEq, Repr

/-- One iteration of `AdaptiveRateLimiter.acquire`'s `while True` body at
time `now`: purge expired timestamps (`_clean_old_requests`), recompute the
multiplier, compute the effective limits, and append `now` to both deques
exactly when both windows have room. -/
def AdaptiveRateLimiter.tryAcquire (rl : AdaptiveRateLimiter)
    (priority : Priority) (now : ℚ) : AcqAttempt :=
  let short1 := rl.short_requests.dropWhile (fun u => decide (rl.short_window ≤ now - u))
  let long1 := rl.long_requests.dropWhile (fun u => decide (rl.long_window ≤ now - u))
  let m := rl.newMult
  let eS := rl.effShort priority
  let eL := rl.effLong
  if short1.length < eS ∧ long1.length < eL then
    ⟨true, eS, eL,
      { rl with short_requests := short1 ++ [now],
                long_requests := long1 ++ [now],
                backoff_multiplier := m }⟩
  else
    ⟨false, eS, eL,
      { rl with short_requests := short1,
                long_requests := long1,
                backoff_multiplier := m }⟩

/-- `AdaptiveRateLimiter.acquire`: iterate the loop body over the given
poll times; on a granted iteration the function returns `0` (the source's
`return 0  # No wait needed`).  `none` models never being granted within
the supplied poll times. -/
def AdaptiveRateLimiter.acquire (rl : AdaptiveRateLimiter)
    (priority : Priority) : List ℚ → Option (ℚ × AdaptiveRateLimiter)
  | [] => none
  | now :: rest =>
    let a := rl.tryAcquire priority now
    if a.granted then some (0, a.rl) else a.rl.acquire priority rest

/-- `AdaptiveRateLimiter.report_429`: increment the consecutive counter if
the previous 429 was less than 60 seconds ago, else reset it to 1. -/
def AdaptiveRateLimiter.report_429 (rl : AdaptiveRateLimiter) (now : ℚ) :
    AdaptiveRateLimiter :=
  if now - rl.last_429_time < 60 then
    { rl with consecutive_429s := rl.consecutive_429s + 1, last_429_time := now }
  else
    { rl with consecutive_429s := 1, last_429_time := now }

/-- `AdaptiveRateLimiter.report_success`: decay the counter
(`max(0, c - 1)`, which is `ℕ` subtraction) once the last 429 is more than
60 seconds old. -/
def AdaptiveRateLimiter.report_success (rl : AdaptiveRateLimiter) (now : ℚ) :
    AdaptiveRateLimiter :=
  if 60 < now - rl.last_429_time then
    { rl with consecutive_429s := rl.consecutive_429s - 1 }
  else rl

/-- An event hitting an `AdaptiveRateLimiter`: one `acquire`-loop attempt,
a `report_429`, or a `report_success`. -/
inductive AEvent where
  | acq (priority : Priority)
  | rep429
  | repSucc
deriving DecidableEq, Repr

/-- Run a timed event trace; returns the final limiter state and the list
of granted acquisitions (in order, annotated with the effective limits in
force at each grant). -/
def AdaptiveRateLimiter.run (rl : AdaptiveRateLimiter) :
    List (ℚ × AEvent) → AdaptiveRateLimiter × List Grant
  | [] => (rl, [])
  | (now, AEvent.acq p) :: rest =>
    let a := rl.tryAcquire p now
    let r := a.rl.run rest
    (r.1, if a.granted then ⟨now, a.effective_short, a.effective_long⟩ :: r.2 else r.2)
  | (now, AEvent.rep429) :: rest => (rl.report_429 now).run rest
  | (now, AEvent.repSucc) :: rest => (rl.report_success now).run rest

/-- The counter values observed after each of a sequence of `report_429`
calls at the given times. -/
def reportChain (rl : AdaptiveRateLimiter) : List ℚ → List ℕ
  | [] => []
  | t :: ts => (rl.report_429 t).consecutive_429s :: reportChain (rl.report_429 t) ts

/-- Simple `RateLimiter` from `lol_match_exporter.py` (fields `_short` and
`_long` are the two timestamp deques). -/
structure RateLimiter where
  short_max : ℕ
  short_window : ℚ
  long_max : ℕ
  long_window : ℚ
  _short : List ℚ
  _long : List ℚ
deriving DecidableEq, Repr

/-- `RateLimiter.__init__` (source defaults `20, 1.0, 100, 120.0`). -/
def RateLimiter.init (short_max : ℕ) (short_window : ℚ) (long_max : ℕ)
    (long_window : ℚ) : RateLimiter :=
  ⟨short_max, short_window, long_max, long_window, [], []⟩

/-- One iteration of `RateLimiter.acquire`'s `while True` body at time
`now`: purge both deques, and consume a slot in each exactly when both
have room. -/
def RateLimiter.tryAcquire (rl : RateLimiter) (now : ℚ) : Bool × RateLimiter :=
  let short1 := rl._short.dropWhile (fun u => decide (rl.short_window ≤ now - u))
  let long1 := rl._long.dropWhile (fun u => decide (rl.long_window ≤ now - u))
  if short1.length < rl.short_max ∧ long1.length < rl.long_max then
    (true, { rl with _short := short1 ++ [now], _long := long1 ++ [now] })
  else
    (false, { rl with _short := short1, _long := long1 })

/-- Run a sequence of `acquire`-loop attempts at the given times; returns
the final state and the granted acquisitions (annotated with the fixed
limits). -/
def RateLimiter.runAcquires (rl : RateLimiter) :
    List ℚ → RateLimiter × List Grant
  | [] => (rl, [])
  | now :: rest =>
    let a := rl.tryAcquire now
    let r := a.2.runAcquires rest
    (r.1, if a.1 then ⟨now, rl.short_max, rl.long_max⟩ :: r.2 else r.2)

/-- A response as seen by `request_with_backoff`: status code, the
optional `Retry-After` header (already parsed as seconds), and an abstract
body. -/
structure RwbResponse where
  status_code : ℕ
  retryAfter : Option ℚ
  body : ℕ
deriving DecidableEq, Repr

/-- Observable outcome of `request_with_backoff`: number of HTTP attempts
made, the `time.sleep` durations in order, and the response returned to
the caller (`none` models the terminal `raise`, reachable only when no
attempt was made). -/
structure RwbResult where
  attempts : ℕ
  sleeps : List ℚ
  returned : Option RwbResponse
deriving DecidableEq, Repr

/-- The attempt loop of `request_with_backoff`: on 429 sleep
`Retry-After` if present else the current backoff, then double the backoff
capped at 16; on 5xx sleep the backoff and double it likewise; otherwise
return the response.  `made` counts requests already issued; `oracle i` is
the response of the `i`-th request. -/
def rwbGo (oracle : ℕ → RwbResponse) :
    ℕ → ℕ → ℚ → Option RwbResponse → RwbResult
  | 0, made, _, last => ⟨made, [], last⟩
  | fuel + 1, made, backoff, _ =>
    let resp := oracle made
    if resp.status_code = 429 then
      let sleep_s : ℚ := resp.retryAfter.getD backoff
      let r := rwbGo oracle fuel (made + 1) (min (backoff * 2) 16) (some resp)
      ⟨r.attempts, sleep_s :: r.sleeps, r.returned⟩
    else if 500 ≤ resp.status_code then
      let r := rwbGo oracle fuel (made + 1) (min (backoff * 2) 16) (some resp)
      ⟨r.attempts, backoff :: r.sleeps, r.returned⟩
    else
      ⟨made + 1, [], some resp⟩

/-- `request_with_backoff`: `max_attempts = 6`, initial `backoff = 1.0`. -/
def request_with_backoff (oracle : ℕ → RwbResponse) : RwbResult :=
  rwbGo oracle 6 0 1 none

/-- A response as seen by `EnhancedRiotAPI._make_request`: status code,
parsed optional `Retry-After` header, and the JSON body (abstract type
`D`). -/
structure HttpResponse (D : Type) where
  status_code : ℕ
  retryAfter : Option ℚ
  body : D
deriving DecidableEq, Repr

/-- The `EnhancedRiotAPI` client state touched by `_make_request`. -/
structure ClientState (D : Type) where
  cache : LRUCache D
  rl : AdaptiveRateLimiter
  total_requests : ℕ
  failed_requests : ℕ
  queue : List ApiRequest
deriving DecidableEq, Repr

/-- Observable outcome of one `_make_request` call: the new client state,
the returned payload, whether an HTTP request was issued, whether the
`wait_time > 0` reporting branch ran, and the `time.sleep` durations. -/
structure MkOutcome (D : Type) where
  st : ClientState D
  ret : Option D
  httpIssued : Bool
  waitReported : Bool
  sleeps : List ℚ
deriving DecidableEq, Repr

/-- Substring test, modelling Python's `"match" in request.url`. -/
def containsSub (s pat : String) : Bool :=
  s.toList.tails.any (fun suf => pat.toList.isPrefixOf suf)

/-- `EnhancedRiotAPI._make_request`.  `keyOf` abstracts
`_get_cache_key` (an md5 digest of url and params); `now` is the clock at
the cache probe, `acqTimes` the poll times of the rate-limiter loop,
`now2` the clock after the HTTP exchange; `httpResult = none` models an
exception from `session.request`.  The whole call returns `none` only when
the rate limiter loop never grants within `acqTimes`. -/
def makeRequest (keyOf : ApiRequest → String) (now : ℚ) (acqTimes : List ℚ)
    (now2 : ℚ) (httpResult : Option (HttpResponse D)) (st : ClientState D)
    (req : ApiRequest) : Option (MkOutcome D) :=
  let key := keyOf req
  match st.cache.get now key with
  | (some data, cache1) =>
    some ⟨{ st with cache := cache1 }, some data, false, false, []⟩
  | (none, cache1) =>
    let st1 : ClientState D := { st with cache := cache1 }
    match st1.rl.acquire req.priority acqTimes with
    | none => none
    | some (wait_time, rl1) =>
      let st2 : ClientState D := { st1 with rl := rl1 }
      let waitReported := decide (0 < wait_time)
      match httpResult with
      | none =>
        some ⟨{ st2 with failed_requests := st2.failed_requests + 1 },
              none, true, waitReported, []⟩
      | some resp =>
        let st3 : ClientState D := { st2 with total_requests := st2.total_requests + 1 }
        if resp.status_code = 200 then
          let rl2 := st3.rl.report_success now2
          let ttl : ℚ := if containsSub req.url (r"match") then 300 else 600
          let cache2 := st3.cache.set now2 key resp.body ttl
          some ⟨{ st3 with rl := rl2, cache := cache2 },
                some resp.body, true, waitReported, []⟩
        else if resp.status_code = 429 then
          let rl2 := st3.rl.report_429 now2
          let retry_after : ℚ := resp.retryAfter.getD 10
          let st4 : ClientState D := { st3 with rl := rl2 }
          if req.retry_count < 3 then
            some ⟨{ st4 with queue := st4.queue ++
                      [{ req with retry_count := req.retry_count + 1,
                                  priority := Priority.HIGH }] },
                  none, true, waitReported, [retry_after]⟩
          else
            some ⟨st4, none, true, waitReported, [retry_after]⟩
        else if 500 ≤ resp.status_code then
          let st4 : ClientState D := { st3 with failed_requests := st3.failed_requests + 1 }
          let sl : ℚ := (2 : ℚ) ^ req.retry_count
          if req.retry_count < 3 then
            some ⟨{ st4 with queue := st4.queue ++
                      [{ req with retry_count := req.retry_count + 1 }] },
                  none, true, waitReported, [sl]⟩
          else
            some ⟨st4, none, true, waitReported, [sl]⟩
        else
          some ⟨{ st3 with failed_requests := st3.failed_requests + 1 },
                none, true, waitReported, []⟩

/-! ### List helper lemmas for the sliding-window invariant -/

theorem dropWhile_purge_eq_filter (w now : ℚ) (l : List ℚ)
    (hl : l.Sorted (· ≤ ·)) :
    l.dropWhile (fun u => decide (w ≤ now - u)) =
      l.filter (fun u => decide (now - u < w)) := by
  induction l with
  | nil => rfl
  | cons a l ih =>
    rcases List.sorted_cons.mp hl with ⟨ha, hl'⟩
    by_cases h : w ≤ now - a
    · rw [List.dropWhile_cons, if_pos (by simpa using h),
        List.filter_cons_of_neg (by simpa using not_lt.mpr h)]
      exact ih hl'
    · rw [List.dropWhile_cons, if_neg (by simpa using h),
        List.filter_cons_of_pos (by simpa using lt_of_not_le h)]
      have hrest : l.filter (fun u => decide (now - u < w)) = l := by
        refine List.filter_eq_self.mpr fun u hu => ?_
        have hau := ha u hu
        have h1 : now - a < w := lt_of_not_le h
        simp only [decide_eq_true_eq]
        linarith
      rw [hrest]

theorem filter_window_mono (w Tc now : ℚ) (hT : Tc ≤ now) (gs : List ℚ) :
    (gs.filter (fun u => decide (Tc - u < w))).filter
        (fun u => decide (now - u < w)) =
      gs.filter (fun u => decide (now - u < w)) := by
  induction gs with
  | nil => rfl
  | cons a gs ih =>
    by_cases h2 : now - a < w
    · have h1 : Tc - a < w := by linarith
      rw [List.filter_cons_of_pos (by simpa using h1),
        List.filter_cons_of_pos (by simpa using h2),
        List.filter_cons_of_pos (by simpa using h2), ih]
    · by_cases h1 : Tc - a < w
      · rw [List.filter_cons_of_pos (by simpa using h1),
          List.filter_cons_of_neg (by simpa using h2),
          List.filter_cons_of_neg (by simpa using h2), ih]
      · rw [List.filter_cons_of_neg (by simpa using h1),
          List.filter_cons_of_neg (by simpa using h2), ih]

theorem countWin_eq_of_le (gs : List ℚ) (now w : ℚ)
    (h : ∀ g ∈ gs, g ≤ now) :
    countWin gs now w = (gs.filter (fun u => decide (now - u < w))).length := by
  unfold countWin
  congr 1
  refine List.filter_congr fun g hg => ?_
  have := h g hg
  simp only [decide_eq_true_eq, decide_eq_decide]
  constructor
  · rintro ⟨h1, _⟩; linarith
  · intro h1; exact ⟨by linarith, this⟩

theorem append_singleton_cases {α : Type _} (l pre post : List α) (x y : α)
    (h : l ++ [x] = pre ++ y :: post) :
    (pre = l ∧ y = x ∧ post = []) ∨
      ∃ post', post = post' ++ [x] ∧ l = pre ++ y :: post' := by
  rcases List.eq_nil_or_concat post with rfl | ⟨post', z, rfl⟩
  · left
    have h2 : l ++ [x] = pre ++ [y] := h
    have hlen : ([x] : List α).length = ([y] : List α).length := rfl
    obtain ⟨h3, h4⟩ := List.append_inj' h2 hlen
    exact ⟨h3.symm, (List.cons.injEq ..).mp h4 |>.1.symm, rfl⟩
  · right
    have h2 : l ++ [x] = (pre ++ y :: post') ++ [z] := by
      rw [h]; simp
    have hlen : ([x] : List α).length = ([z] : List α).length := rfl
    obtain ⟨h3, h4⟩ := List.append_inj' h2 hlen
    have hx : x = z := ((List.cons.injEq ..).mp h4).1
    exact ⟨post', by rw [hx]; simp [List.concat_eq_append], h3⟩

theorem winBounded_nil (w : ℚ) (eff : Grant → ℕ) : winBounded w eff [] := by
  intro pre x post h
  exact absurd h (by simp)

theorem winBounded_concat (w : ℚ) (eff : Grant → ℕ) (gs : List Grant)
    (x : Grant) (hb : winBounded w eff gs)
    (hx : countWin ((gs ++ [x]).map Grant.time) x.time w ≤ eff x) :
    winBounded w eff (gs ++ [x]) := by
  intro pre y post h
  rcases append_singleton_cases gs pre post x y h with ⟨hpre, hy, hpost⟩ | ⟨post', _, hgs⟩
  · subst hpre; subst hy
    exact hx
  · exact hb pre y post' hgs

theorem le_foldr_max {a : ℕ} {l : List ℕ} (h : a ∈ l) :
    a ≤ l.foldr max 0 := by
  induction l with
  | nil => cases h
  | cons b l ih =>
    rcases List.mem_cons.mp h with rfl | h'
    · exact le_max_left _ _
    · exact le_trans (ih h') (le_max_right _ _)

theorem foldr_max_le {B : ℕ} {l : List ℕ} (h : ∀ a ∈ l, a ≤ B) :
    l.foldr max 0 ≤ B := by
  induction l with
  | nil => exact Nat.zero_le _
  | cons b l ih =>
    exact max_le (h b (List.mem_cons_self _ _)) (ih fun a ha => h a (List.mem_cons_of_mem _ ha))

theorem filter_last_decomp {α : Type _} (p : α → Bool) (l : List α)
    (h : l.filter p ≠ []) :
    ∃ pre x post, l = pre ++ x :: post ∧ p x = true ∧ post.filter p = [] := by
  induction l with
  | nil => exact absurd rfl h
  | cons a l ih =>
    by_cases hl : l.filter p = []
    · have ha : p a = true := by
        by_contra hpa
        rw [List.filter_cons_of_neg hpa] at h
        exact h hl
      exact ⟨[], a, l, rfl, ha, hl⟩
    · obtain ⟨pre, x, post, rfl, hx, hpost⟩ := ih hl
      exact ⟨a :: pre, x, post, rfl, hx, hpost⟩

theorem length_filter_map {α β : Type _} (f : α → β) (p : β → Bool) (l : List α) :
    ((l.map f).filter p).length = (l.filter (fun a => p (f a))).length := by
  induction l with
  | nil => rfl
  | cons a l ih =>
    by_cases h : p (f a) = true
    · simp [List.filter_cons, h, ih]
    · simp [List.filter_cons, h, ih]

theorem length_filter_mono {α : Type _} (p q : α → Bool) (l : List α)
    (h : ∀ a ∈ l, p a = true → q a = true) :
    (l.filter p).length ≤ (l.filter q).length := by
  induction l with
  | nil => exact le_refl _
  | cons a l ih =>
    have ih' := ih fun b hb => h b (List.mem_cons_of_mem _ hb)
    by_cases hpa : p a = true
    · have hqa := h a (List.mem_cons_self _ _) hpa
      rw [List.filter_cons_of_pos hpa, List.filter_cons_of_pos hqa]
      simpa using ih'
    · rw [List.filter_cons_of_neg hpa]
      by_cases hqa : q a = true
      · rw [List.filter_cons_of_pos hqa]
        exact le_trans ih' (by simp)
      · rw [List.filter_cons_of_neg hqa]
        exact ih'

theorem maxEffWin_le (w : ℚ) (eff : Grant → ℕ) (grants : List Grant) (t : ℚ)
    (B : ℕ) (h : ∀ x ∈ grants, eff x ≤ B) :
    maxEffWin w eff grants t ≤ B := by
  refine foldr_max_le fun a ha => ?_
  obtain ⟨x, hx, rfl⟩ := List.mem_map.mp ha
  exact h x (List.mem_filter.mp hx).1

theorem countWin_le_maxEffWin (w : ℚ) (eff : Grant → ℕ) (grants : List Grant)
    (hs : (grants.map Grant.time).Sorted (· ≤ ·))
    (hb : winBounded w eff grants) (t : ℚ) :
    countWin (grants.map Grant.time) t w ≤ maxEffWin w eff grants t := by
  have hcount : countWin (grants.map Grant.time) t w =
      (grants.filter (fun x => decide (t - w < x.time ∧ x.time ≤ t))).length := by
    unfold countWin
    exact length_filter_map Grant.time _ grants
  by_cases hne : grants.filter (fun x => decide (t - w < x.time ∧ x.time ≤ t)) = []
  · rw [hcount, hne]
    exact Nat.zero_le _
  · obtain ⟨pre, x, post, hdec, hx, hpost⟩ :=
      filter_last_decomp (fun x => decide (t - w < x.time ∧ x.time ≤ t)) grants hne
    have hxwin : t - w < x.time ∧ x.time ≤ t := by simpa using hx
    -- every grant before x that lies in the window at t also lies in the window at x.time
    have hpre_le : ∀ y ∈ pre, y.time ≤ x.time := by
      intro y hy
      rw [hdec, List.map_append, List.map_cons] at hs
      have := (List.pairwise_append.mp hs).2.2
      exact this y.time (List.mem_map.mpr ⟨y, hy, rfl⟩) x.time (List.mem_cons_self _ _)
    have hmono : ((pre ++ [x]).filter (fun y => decide (t - w < y.time ∧ y.time ≤ t))).length ≤
        ((pre ++ [x]).filter (fun y => decide (x.time - w < y.time ∧ y.time ≤ x.time))).length := by
      refine length_filter_mono _ _ _ fun y hy hpy => ?_
      have hpy' : t - w < y.time ∧ y.time ≤ t := by simpa using hpy
      have hyx : y.time ≤ x.time := by
        rcases List.mem_append.mp hy with hy' | hy'
        · exact hpre_le y hy'
        · rcases List.mem_singleton.mp hy' with rfl
          exact le_refl _
      simp only [decide_eq_true_eq]
      exact ⟨by linarith [hxwin.2], hyx⟩
    have hsplit : (grants.filter (fun y => decide (t - w < y.time ∧ y.time ≤ t))).length =
        ((pre ++ [x]).filter (fun y => decide (t - w < y.time ∧ y.time ≤ t))).length := by
      have hpost' : List.filter (fun y => decide (t - w < y.time) && decide (y.time ≤ t)) post = [] := by
        simpa using hpost
      rw [hdec]
      simp [List.filter_append, List.filter_cons, hxwin, hpost']
    have hbx := hb pre x post hdec
    have hcx : countWin ((pre ++ [x]).map Grant.time) x.time w =
        ((pre ++ [x]).filter (fun y => decide (x.time - w < y.time ∧ y.time ≤ x.time))).length := by
      unfold countWin
      exact length_filter_map Grant.time _ (pre ++ [x])
    have hxfil : x ∈ grants.filter (fun y => decide (t - w < y.time ∧ y.time ≤ t)) := by
      rw [hdec]
      exact List.mem_filter.mpr ⟨by simp, hx⟩
    have heff : eff x ≤ maxEffWin w eff grants t :=
      le_foldr_max (List.mem_map.mpr ⟨x, hxfil, rfl⟩)
    calc countWin (grants.map Grant.time) t w
        = ((pre ++ [x]).filter (fun y => decide (t - w < y.time ∧ y.time ≤ t))).length := by
          rw [hcount, hsplit]
      _ ≤ ((pre ++ [x]).filter (fun y => decide (x.time - w < y.time ∧ y.time ≤ x.time))).length := hmono
      _ = countWin ((pre ++ [x]).map Grant.time) x.time w := hcx.symm
      _ ≤ eff x := hbx
      _ ≤ maxEffWin w eff grants t := heff

/-! ### Window invariant for the simple `RateLimiter` -/

theorem sorted_filter_rat (l : List ℚ) (p : ℚ → Bool)
    (h : l.Sorted (· ≤ ·)) : (l.filter p).Sorted (· ≤ ·) :=
  List.Pairwise.sublist (List.filter_sublist _) h

theorem sorted_append_singleton (l : List ℚ) (a : ℚ)
    (h : l.Sorted (· ≤ ·)) (ha : ∀ b ∈ l, b ≤ a) :
    (l ++ [a]).Sorted (· ≤ ·) := by
  apply List.pairwise_append.mpr
  exact ⟨h, List.pairwise_singleton _ _, fun b hb c hc => by
    rcases List.mem_singleton.mp hc with rfl
    exact ha b hb⟩

theorem RateLimiter.runAcquires_invariant (sw lw : ℚ) (smax lmax : ℕ)
    (hsw : 0 < sw) (hlw : 0 < lw) (times : List ℚ) :
    ∀ (rl : RateLimiter) (grants : List Grant) (Tc : ℚ),
    rl.short_window = sw → rl.long_window = lw →
    rl.short_max = smax → rl.long_max = lmax →
    rl._short = (grants.map Grant.time).filter (fun u => decide (Tc - u < sw)) →
    rl._long = (grants.map Grant.time).filter (fun u => decide (Tc - u < lw)) →
    (grants.map Grant.time).Sorted (· ≤ ·) →
    (∀ g ∈ grants, g.time ≤ Tc) →
    (∀ g ∈ grants, g.effS = smax ∧ g.effL = lmax) →
    winBounded sw Grant.effS grants →
    winBounded lw Grant.effL grants →
    times.Pairwise (· ≤ ·) → (∀ u ∈ times, Tc ≤ u) →
    ((grants ++ (rl.runAcquires times).2).map Grant.time).Sorted (· ≤ ·) ∧
    winBounded sw Grant.effS (grants ++ (rl.runAcquires times).2) ∧
    winBounded lw Grant.effL (grants ++ (rl.runAcquires times).2) ∧
    (∀ g ∈ grants ++ (rl.runAcquires times).2, g.effS = smax ∧ g.effL = lmax) := by
  induction times with
  | nil =>
    intro rl grants Tc _ _ _ _ _ _ hsort hle hann hbS hbL _ _
    simp only [RateLimiter.runAcquires, List.append_nil]
    exact ⟨hsort, hbS, hbL, hann⟩
  | cons now rest ih =>
    intro rl grants Tc hcsw hclw hcsm hclm hshort hlong hsort hle hann hbS hbL htimes hTc
    have hTnow : Tc ≤ now := hTc now (List.mem_cons_self _ _)
    have hrest_pw : rest.Pairwise (· ≤ ·) := (List.pairwise_cons.mp htimes).2
    have hrest_ge : ∀ u ∈ rest, now ≤ u := (List.pairwise_cons.mp htimes).1
    -- the purged deques at time `now`
    have hfilsort : ∀ p : ℚ → Bool, ((grants.map Grant.time).filter p).Sorted (· ≤ ·) :=
      fun p => sorted_filter_rat _ p hsort
    have hs1 : rl._short.dropWhile (fun u => decide (rl.short_window ≤ now - u)) =
        (grants.map Grant.time).filter (fun u => decide (now - u < sw)) := by
      rw [hcsw, hshort, dropWhile_purge_eq_filter sw now _ (hfilsort _),
        filter_window_mono sw Tc now hTnow]
    have hl1 : rl._long.dropWhile (fun u => decide (rl.long_window ≤ now - u)) =
        (grants.map Grant.time).filter (fun u => decide (now - u < lw)) := by
      rw [hclw, hlong, dropWhile_purge_eq_filter lw now _ (hfilsort _),
        filter_window_mono lw Tc now hTnow]
    have htlenow : ∀ u ∈ grants.map Grant.time, u ≤ now := by
      intro u hu
      obtain ⟨g, hg, rfl⟩ := List.mem_map.mp hu
      exact le_trans (hle g hg) hTnow
    by_cases hcond :
        (rl._short.dropWhile (fun u => decide (rl.short_window ≤ now - u))).length < rl.short_max ∧
        (rl._long.dropWhile (fun u => decide (rl.long_window ≤ now - u))).length < rl.long_max
    · -- granted
      have htry : rl.tryAcquire now =
          (true, { rl with
            _short := rl._short.dropWhile (fun u => decide (rl.short_window ≤ now - u)) ++ [now],
            _long := rl._long.dropWhile (fun u => decide (rl.long_window ≤ now - u)) ++ [now] }) := by
        unfold RateLimiter.tryAcquire
        rw [if_pos hcond]
      have hrun : (rl.runAcquires (now :: rest)).2 =
          ⟨now, rl.short_max, rl.long_max⟩ ::
            ((rl.tryAcquire now).2.runAcquires rest).2 := by
        conv_lhs => rw [RateLimiter.runAcquires]
        rw [htry]
        simp
      set xg : Grant := ⟨now, smax, lmax⟩ with hxg
      have hxg' : (⟨now, rl.short_max, rl.long_max⟩ : Grant) = xg := by
        rw [hxg, hcsm, hclm]
      set rl1 := (rl.tryAcquire now).2 with hrl1
      have hrl1s : rl1._short =
          (grants.map Grant.time).filter (fun u => decide (now - u < sw)) ++ [now] := by
        rw [hrl1, htry, ← hs1]
      have hrl1l : rl1._long =
          (grants.map Grant.time).filter (fun u => decide (now - u < lw)) ++ [now] := by
        rw [hrl1, htry, ← hl1]
      have hrl1conf : rl1.short_window = sw ∧ rl1.long_window = lw ∧
          rl1.short_max = smax ∧ rl1.long_max = lmax := by
        rw [hrl1, htry]
        exact ⟨hcsw, hclw, hcsm, hclm⟩
      -- the new grant list
      have hmapnew : ((grants ++ [xg]).map Grant.time) = grants.map Grant.time ++ [now] := by
        simp [hxg]
      have hsort' : ((grants ++ [xg]).map Grant.time).Sorted (· ≤ ·) := by
        rw [hmapnew]
        exact sorted_append_singleton _ _ hsort htlenow
      have hfilS : (((grants ++ [xg]).map Grant.time).filter
          (fun u => decide (now - u < sw))) =
          (grants.map Grant.time).filter (fun u => decide (now - u < sw)) ++ [now] := by
        rw [hmapnew, List.filter_append]
        congr 1
        simp [List.filter_cons, sub_self, hsw]
      have hfilL : (((grants ++ [xg]).map Grant.time).filter
          (fun u => decide (now - u < lw))) =
          (grants.map Grant.time).filter (fun u => decide (now - u < lw)) ++ [now] := by
        rw [hmapnew, List.filter_append]
        congr 1
        simp [List.filter_cons, sub_self, hlw]
      have hcountS : countWin ((grants ++ [xg]).map Grant.time) now sw =
          ((grants.map Grant.time).filter (fun u => decide (now - u < sw))).length + 1 := by
        rw [countWin_eq_of_le _ now sw (by
          intro u hu
          rw [hmapnew] at hu
          rcases List.mem_append.mp hu with hu' | hu'
          · exact htlenow u hu'
          · rcases List.mem_singleton.mp hu' with rfl; exact le_refl _)]
        rw [hfilS, List.length_append, List.length_singleton]
      have hcountL : countWin ((grants ++ [xg]).map Grant.time) now lw =
          ((grants.map Grant.time).filter (fun u => decide (now - u < lw))).length + 1 := by
        rw [countWin_eq_of_le _ now lw (by
          intro u hu
          rw [hmapnew] at hu
          rcases List.mem_append.mp hu with hu' | hu'
          · exact htlenow u hu'
          · rcases List.mem_singleton.mp hu' with rfl; exact le_refl _)]
        rw [hfilL, List.length_append, List.length_singleton]
      have hbS' : winBounded sw Grant.effS (grants ++ [xg]) := by
        refine winBounded_concat sw Grant.effS grants xg hbS ?_
        show countWin ((grants ++ [xg]).map Grant.time) xg.time sw ≤ xg.effS
        have : xg.time = now := rfl
        rw [this, hcountS]
        have hlt := hcond.1
        rw [hs1, hcsm] at hlt
        exact hlt
      have hbL' : winBounded lw Grant.effL (grants ++ [xg]) := by
        refine winBounded_concat lw Grant.effL grants xg hbL ?_
        show countWin ((grants ++ [xg]).map Grant.time) xg.time lw ≤ xg.effL
        have : xg.time = now := rfl
        rw [this, hcountL]
        have hlt := hcond.2
        rw [hl1, hclm] at hlt
        exact hlt
      have ihres := ih rl1 (grants ++ [xg]) now hrl1conf.1 hrl1conf.2.1
        hrl1conf.2.2.1 hrl1conf.2.2.2
        (by rw [hrl1s, hfilS]) (by rw [hrl1l, hfilL]) hsort'
        (by
          intro g hg
          rcases List.mem_append.mp hg with hg' | hg'
          · exact le_trans (hle g hg') hTnow
          · rcases List.mem_singleton.mp hg' with rfl; exact le_refl _)
        (by
          intro g hg
          rcases List.mem_append.mp hg with hg' | hg'
          · exact hann g hg'
          · rcases List.mem_singleton.mp hg' with rfl; exact ⟨rfl, rfl⟩)
        hbS' hbL' hrest_pw hrest_ge
      rw [hrun, hxg']
      have hassoc : grants ++ xg :: (rl1.runAcquires rest).2 =
          (grants ++ [xg]) ++ (rl1.runAcquires rest).2 := by
        simp
      rw [hassoc]
      exact ihres
    · -- not granted: the purged state persists, no grant is emitted
      have htry : rl.tryAcquire now =
          (false, { rl with
            _short := rl._short.dropWhile (fun u => decide (rl.short_window ≤ now - u)),
            _long := rl._long.dropWhile (fun u => decide (rl.long_window ≤ now - u)) }) := by
        unfold RateLimiter.tryAcquire
        rw [if_neg hcond]
      have hrun : (rl.runAcquires (now :: rest)).2 =
          ((rl.tryAcquire now).2.runAcquires rest).2 := by
        conv_lhs => rw [RateLimiter.runAcquires]
        rw [htry]
        simp
      set rl1 := (rl.tryAcquire now).2 with hrl1
      have hrl1conf : rl1.short_window = sw ∧ rl1.long_window = lw ∧
          rl1.short_max = smax ∧ rl1.long_max = lmax := by
        rw [hrl1, htry]
        exact ⟨hcsw, hclw, hcsm, hclm⟩
      have ihres := ih rl1 grants now hrl1conf.1 hrl1conf.2.1
        hrl1conf.2.2.1 hrl1conf.2.2.2
        (by rw [hrl1, htry]; exact hs1) (by rw [hrl1, htry]; exact hl1) hsort
        (fun g hg => le_trans (hle g hg) hTnow) hann hbS hbL hrest_pw hrest_ge
      rw [hrun]
      exact ihres

/-! ### Window invariant for the `AdaptiveRateLimiter` -/

theorem AdaptiveRateLimiter.one_le_newMult (rl : AdaptiveRateLimiter) :
    1 ≤ rl.newMult := by
  unfold AdaptiveRateLimiter.newMult
  split
  · apply le_min
    · norm_num
    · have h : (0 : ℚ) ≤ (rl.consecutive_429s : ℚ) * 0.2 := by positivity
      linarith
  · exact le_max_left _ _

theorem AdaptiveRateLimiter.effLong_le (rl : AdaptiveRateLimiter) :
    rl.effLong ≤ rl.long_limit := by
  unfold AdaptiveRateLimiter.effLong
  have hm := rl.one_le_newMult
  have h1 : (rl.long_limit : ℚ) / rl.newMult ≤ (rl.long_limit : ℚ) :=
    div_le_self (by positivity) hm
  have h2 : ⌊(rl.long_limit : ℚ) / rl.newMult⌋ ≤ ⌊((rl.long_limit : ℕ) : ℚ)⌋ :=
    Int.floor_le_floor h1
  rw [Int.floor_natCast] at h2
  calc (⌊(rl.long_limit : ℚ) / rl.newMult⌋).toNat
      ≤ ((rl.long_limit : ℕ) : ℤ).toNat := Int.toNat_le_toNat h2
    _ = rl.long_limit := Int.toNat_natCast _

theorem AdaptiveRateLimiter.effShort_base_le (rl : AdaptiveRateLimiter) :
    (⌊(rl.short_limit : ℚ) / rl.newMult⌋).toNat ≤ rl.short_limit := by
  have hm := rl.one_le_newMult
  have h1 : (rl.short_limit : ℚ) / rl.newMult ≤ (rl.short_limit : ℚ) :=
    div_le_self (by positivity) hm
  have h2 : ⌊(rl.short_limit : ℚ) / rl.newMult⌋ ≤ ⌊((rl.short_limit : ℕ) : ℚ)⌋ :=
    Int.floor_le_floor h1
  rw [Int.floor_natCast] at h2
  calc (⌊(rl.short_limit : ℚ) / rl.newMult⌋).toNat
      ≤ ((rl.short_limit : ℕ) : ℤ).toNat := Int.toNat_le_toNat h2
    _ = rl.short_limit := Int.toNat_natCast _

theorem AdaptiveRateLimiter.short_le_burst_bound (rl : AdaptiveRateLimiter)
    (hb : 0 ≤ rl.burst_allowance) :
    rl.short_limit ≤ (⌊(rl.short_limit : ℚ) * (1 + rl.burst_allowance)⌋).toNat := by
  have h1 : ((rl.short_limit : ℕ) : ℚ) ≤ (rl.short_limit : ℚ) * (1 + rl.burst_allowance) := by
    nlinarith [Nat.cast_nonneg (α := ℚ) rl.short_limit]
  have h2 : ((rl.short_limit : ℕ) : ℤ) ≤ ⌊(rl.short_limit : ℚ) * (1 + rl.burst_allowance)⌋ := by
    rw [Int.le_floor]
    push_cast
    exact h1
  calc rl.short_limit = ((rl.short_limit : ℕ) : ℤ).toNat := (Int.toNat_natCast _).symm
    _ ≤ (⌊(rl.short_limit : ℚ) * (1 + rl.burst_allowance)⌋).toNat := Int.toNat_le_toNat h2

theorem AdaptiveRateLimiter.effShort_le_burst (rl : AdaptiveRateLimiter)
    (p : Priority) (hb : 0 ≤ rl.burst_allowance) :
    rl.effShort p ≤ (⌊(rl.short_limit : ℚ) * (1 + rl.burst_allowance)⌋).toNat := by
  unfold AdaptiveRateLimiter.effShort
  by_cases hp : p = Priority.HIGH
  · rw [if_pos hp]
    have he0 : ((⌊(rl.short_limit : ℚ) / rl.newMult⌋).toNat : ℚ) ≤ (rl.short_limit : ℚ) := by
      exact_mod_cast rl.effShort_base_le
    have h1 : ((⌊(rl.short_limit : ℚ) / rl.newMult⌋).toNat : ℚ) * (1 + rl.burst_allowance) ≤
        (rl.short_limit : ℚ) * (1 + rl.burst_allowance) := by
      apply mul_le_mul_of_nonneg_right he0
      linarith
    exact Int.toNat_le_toNat (Int.floor_le_floor h1)
  · rw [if_neg hp]
    exact le_trans rl.effShort_base_le (rl.short_le_burst_bound hb)

theorem AdaptiveRateLimiter.effShort_le_of_ne (rl : AdaptiveRateLimiter)
    (p : Priority) (hp : p ≠ Priority.HIGH) :
    rl.effShort p ≤ rl.short_limit := by
  unfold AdaptiveRateLimiter.effShort
  rw [if_neg hp]
  exact rl.effShort_base_le

theorem AdaptiveRateLimiter.report_429_frame (rl : AdaptiveRateLimiter) (now : ℚ) :
    (rl.report_429 now).short_window = rl.short_window ∧
    (rl.report_429 now).long_window = rl.long_window ∧
    (rl.report_429 now).short_limit = rl.short_limit ∧
    (rl.report_429 now).long_limit = rl.long_limit ∧
    (rl.report_429 now).burst_allowance = rl.burst_allowance ∧
    (rl.report_429 now).short_requests = rl.short_requests ∧
    (rl.report_429 now).long_requests = rl.long_requests := by
  unfold AdaptiveRateLimiter.report_429
  split <;> exact ⟨rfl, rfl, rfl, rfl, rfl, rfl, rfl⟩

theorem AdaptiveRateLimiter.report_success_frame (rl : AdaptiveRateLimiter) (now : ℚ) :
    (rl.report_success now).short_window = rl.short_window ∧
    (rl.report_success now).long_window = rl.long_window ∧
    (rl.report_success now).short_limit = rl.short_limit ∧
    (rl.report_success now).long_limit = rl.long_limit ∧
    (rl.report_success now).burst_allowance = rl.burst_allowance ∧
    (rl.report_success now).short_requests = rl.short_requests ∧
    (rl.report_success now).long_requests = rl.long_requests := by
  unfold AdaptiveRateLimiter.report_success
  split <;> exact ⟨rfl, rfl, rfl, rfl, rfl, rfl, rfl⟩

theorem AdaptiveRateLimiter.run_invariant (sw lw b : ℚ) (S L : ℕ)
    (hsw : 0 < sw) (hlw : 0 < lw) (hb : 0 ≤ b) (evs : List (ℚ × AEvent)) :
    ∀ (rl : AdaptiveRateLimiter) (grants : List Grant) (Tc : ℚ),
    rl.short_window = sw → rl.long_window = lw → rl.short_limit = S →
    rl.long_limit = L → rl.burst_allowance = b →
    rl.short_requests = (grants.map Grant.time).filter (fun u => decide (Tc - u < sw)) →
    rl.long_requests = (grants.map Grant.time).filter (fun u => decide (Tc - u < lw)) →
    (grants.map Grant.time).Sorted (· ≤ ·) →
    (∀ g ∈ grants, g.time ≤ Tc) →
    (∀ g ∈ grants, g.effS ≤ (⌊(S : ℚ) * (1 + b)⌋).toNat ∧ g.effL ≤ L) →
    winBounded sw Grant.effS grants →
    winBounded lw Grant.effL grants →
    (evs.map Prod.fst).Pairwise (· ≤ ·) → (∀ e ∈ evs, Tc ≤ e.1) →
    ((grants ++ (rl.run evs).2).map Grant.time).Sorted (· ≤ ·) ∧
    winBounded sw Grant.effS (grants ++ (rl.run evs).2) ∧
    winBounded lw Grant.effL (grants ++ (rl.run evs).2) ∧
    (∀ g ∈ grants ++ (rl.run evs).2, g.effS ≤ (⌊(S : ℚ) * (1 + b)⌋).toNat ∧ g.effL ≤ L) := by
  induction evs with
  | nil =>
    intro rl grants Tc _ _ _ _ _ _ _ hsort hle hann hbS hbL _ _
    simp only [AdaptiveRateLimiter.run, List.append_nil]
    exact ⟨hsort, hbS, hbL, hann⟩
  | cons ev rest ih =>
    rcases ev with ⟨now, evk⟩
    intro rl grants Tc hcsw hclw hcS hcL hcb hshort hlong hsort hle hann hbS hbL htimes hTc
    have hTnow : Tc ≤ now := hTc (now, evk) (List.mem_cons_self _ _)
    have htimes' : (rest.map Prod.fst).Pairwise (· ≤ ·) := by
      rw [List.map_cons] at htimes
      exact (List.pairwise_cons.mp htimes).2
    have hrest_ge' : ∀ u ∈ rest.map Prod.fst, now ≤ u := by
      rw [List.map_cons] at htimes
      exact (List.pairwise_cons.mp htimes).1
    have hrest_Tc : ∀ e ∈ rest, Tc ≤ e.1 :=
      fun e he => hTc e (List.mem_cons_of_mem _ he)
    have hrest_now : ∀ e ∈ rest, now ≤ e.1 :=
      fun e he => hrest_ge' e.1 (List.mem_map.mpr ⟨e, he, rfl⟩)
    cases evk with
    | rep429 =>
      have hfr := rl.report_429_frame now
      have hrun : (rl.run ((now, AEvent.rep429) :: rest)).2 =
          ((rl.report_429 now).run rest).2 := by
        rw [AdaptiveRateLimiter.run]
      rw [hrun]
      exact ih (rl.report_429 now) grants Tc
        (hfr.1.trans hcsw) (hfr.2.1.trans hclw) (hfr.2.2.1.trans hcS)
        (hfr.2.2.2.1.trans hcL) (hfr.2.2.2.2.1.trans hcb)
        (hfr.2.2.2.2.2.1.trans hshort) (hfr.2.2.2.2.2.2.trans hlong)
        hsort hle hann hbS hbL htimes' hrest_Tc
    | repSucc =>
      have hfr := rl.report_success_frame now
      have hrun : (rl.run ((now, AEvent.repSucc) :: rest)).2 =
          ((rl.report_success now).run rest).2 := by
        rw [AdaptiveRateLimiter.run]
      rw [hrun]
      exact ih (rl.report_success now) grants Tc
        (hfr.1.trans hcsw) (hfr.2.1.trans hclw) (hfr.2.2.1.trans hcS)
        (hfr.2.2.2.1.trans hcL) (hfr.2.2.2.2.1.trans hcb)
        (hfr.2.2.2.2.2.1.trans hshort) (hfr.2.2.2.2.2.2.trans hlong)
        hsort hle hann hbS hbL htimes' hrest_Tc
    | acq p =>
      have hfilsort : ∀ q : ℚ → Bool, ((grants.map Grant.time).filter q).Sorted (· ≤ ·) :=
        fun q => sorted_filter_rat _ q hsort
      have hs1 : rl.short_requests.dropWhile (fun u => decide (rl.short_window ≤ now - u)) =
          (grants.map Grant.time).filter (fun u => decide (now - u < sw)) := by
        rw [hcsw, hshort, dropWhile_purge_eq_filter sw now _ (hfilsort _),
          filter_window_mono sw Tc now hTnow]
      have hl1 : rl.long_requests.dropWhile (fun u => decide (rl.long_window ≤ now - u)) =
          (grants.map Grant.time).filter (fun u => decide (now - u < lw)) := by
        rw [hclw, hlong, dropWhile_purge_eq_filter lw now _ (hfilsort _),
          filter_window_mono lw Tc now hTnow]
      have htlenow : ∀ u ∈ grants.map Grant.time, u ≤ now := by
        intro u hu
        obtain ⟨g, hg, rfl⟩ := List.mem_map.mp hu
        exact le_trans (hle g hg) hTnow
      by_cases hcond :
          (rl.short_requests.dropWhile (fun u => decide (rl.short_window ≤ now - u))).length <
              rl.effShort p ∧
          (rl.long_requests.dropWhile (fun u => decide (rl.long_window ≤ now - u))).length <
              rl.effLong
      · -- granted
        have htry : rl.tryAcquire p now =
            ⟨true, rl.effShort p, rl.effLong,
              { rl with
                short_requests :=
                  rl.short_requests.dropWhile (fun u => decide (rl.short_window ≤ now - u)) ++ [now],
                long_requests :=
                  rl.long_requests.dropWhile (fun u => decide (rl.long_window ≤ now - u)) ++ [now],
                backoff_multiplier := rl.newMult }⟩ := by
          unfold AdaptiveRateLimiter.tryAcquire
          rw [if_pos hcond]
        set xg : Grant := ⟨now, rl.effShort p, rl.effLong⟩ with hxg
        have hrun : (rl.run ((now, AEvent.acq p) :: rest)).2 =
            xg :: ((rl.tryAcquire p now).rl.run rest).2 := by
          conv_lhs => rw [AdaptiveRateLimiter.run]
          rw [htry]
          simp [hxg]
        set rl1 := (rl.tryAcquire p now).rl with hrl1
        have hrl1s : rl1.short_requests =
            (grants.map Grant.time).filter (fun u => decide (now - u < sw)) ++ [now] := by
          rw [hrl1, htry, ← hs1]
        have hrl1l : rl1.long_requests =
            (grants.map Grant.time).filter (fun u => decide (now - u < lw)) ++ [now] := by
          rw [hrl1, htry, ← hl1]
        have hrl1conf : rl1.short_window = sw ∧ rl1.long_window = lw ∧
            rl1.short_limit = S ∧ rl1.long_limit = L ∧ rl1.burst_allowance = b := by
          rw [hrl1, htry]
          exact ⟨hcsw, hclw, hcS, hcL, hcb⟩
        have hmapnew : ((grants ++ [xg]).map Grant.time) = grants.map Grant.time ++ [now] := by
          simp [hxg]
        have hsort' : ((grants ++ [xg]).map Grant.time).Sorted (· ≤ ·) := by
          rw [hmapnew]
          exact sorted_append_singleton _ _ hsort htlenow
        have hfilS : (((grants ++ [xg]).map Grant.time).filter
            (fun u => decide (now - u < sw))) =
            (grants.map Grant.time).filter (fun u => decide (now - u < sw)) ++ [now] := by
          rw [hmapnew, List.filter_append]
          congr 1
          simp [List.filter_cons, sub_self, hsw]
        have hfilL : (((grants ++ [xg]).map Grant.time).filter
            (fun u => decide (now - u < lw))) =
            (grants.map Grant.time).filter (fun u => decide (now - u < lw)) ++ [now] := by
          rw [hmapnew, List.filter_append]
          congr 1
          simp [List.filter_cons, sub_self, hlw]
        have hlenew : ∀ u ∈ (grants ++ [xg]).map Grant.time, u ≤ now := by
          intro u hu
          rw [hmapnew] at hu
          rcases List.mem_append.mp hu with hu' | hu'
          · exact htlenow u hu'
          · rcases List.mem_singleton.mp hu' with rfl; exact le_refl _
        have hcountS : countWin ((grants ++ [xg]).map Grant.time) now sw =
            ((grants.map Grant.time).filter (fun u => decide (now - u < sw))).length + 1 := by
          rw [countWin_eq_of_le _ now sw hlenew, hfilS, List.length_append,
            List.length_singleton]
        have hcountL : countWin ((grants ++ [xg]).map Grant.time) now lw =
            ((grants.map Grant.time).filter (fun u => decide (now - u < lw))).length + 1 := by
          rw [countWin_eq_of_le _ now lw hlenew, hfilL, List.length_append,
            List.length_singleton]
        have hbS' : winBounded sw Grant.effS (grants ++ [xg]) := by
          refine winBounded_concat sw Grant.effS grants xg hbS ?_
          show countWin ((grants ++ [xg]).map Grant.time) xg.time sw ≤ xg.effS
          have hxt : xg.time = now := rfl
          rw [hxt, hcountS]
          have hlt := hcond.1
          rw [hs1] at hlt
          exact hlt
        have hbL' : winBounded lw Grant.effL (grants ++ [xg]) := by
          refine winBounded_concat lw Grant.effL grants xg hbL ?_
          show countWin ((grants ++ [xg]).map Grant.time) xg.time lw ≤ xg.effL
          have hxt : xg.time = now := rfl
          rw [hxt, hcountL]
          have hlt := hcond.2
          rw [hl1] at hlt
          exact hlt
        have hannxg : xg.effS ≤ (⌊(S : ℚ) * (1 + b)⌋).toNat ∧ xg.effL ≤ L := by
          constructor
          · have h1 := rl.effShort_le_burst p (by rw [hcb]; exact hb)
            rw [hcS, hcb] at h1
            exact h1
          · have h1 := rl.effLong_le
            rw [hcL] at h1
            exact h1
        have ihres := ih rl1 (grants ++ [xg]) now hrl1conf.1 hrl1conf.2.1
          hrl1conf.2.2.1 hrl1conf.2.2.2.1 hrl1conf.2.2.2.2
          (by rw [hrl1s, hfilS]) (by rw [hrl1l, hfilL]) hsort'
          (by
            intro g hg
            rcases List.mem_append.mp hg with hg' | hg'
            · exact le_trans (hle g hg') hTnow
            · rcases List.mem_singleton.mp hg' with rfl; exact le_refl _)
          (by
            intro g hg
            rcases List.mem_append.mp hg with hg' | hg'
            · exact hann g hg'
            · rcases List.mem_singleton.mp hg' with rfl; exact hannxg)
          hbS' hbL' htimes' (fun e he => hrest_now e he)
        rw [hrun]
        have hassoc : grants ++ xg :: (rl1.run rest).2 =
            (grants ++ [xg]) ++ (rl1.run rest).2 := by
          simp
        rw [hassoc]
        exact ihres
      · -- not granted
        have htry : rl.tryAcquire p now =
            ⟨false, rl.effShort p, rl.effLong,
              { rl with
                short_requests :=
                  rl.short_requests.dropWhile (fun u => decide (rl.short_window ≤ now - u)),
                long_requests :=
                  rl.long_requests.dropWhile (fun u => decide (rl.long_window ≤ now - u)),
                backoff_multiplier := rl.newMult }⟩ := by
          unfold AdaptiveRateLimiter.tryAcquire
          rw [if_neg hcond]
        have hrun : (rl.run ((now, AEvent.acq p) :: rest)).2 =
            ((rl.tryAcquire p now).rl.run rest).2 := by
          conv_lhs => rw [AdaptiveRateLimiter.run]
          rw [htry]
          simp
        set rl1 := (rl.tryAcquire p now).rl with hrl1
        have hrl1conf : rl1.short_window = sw ∧ rl1.long_window = lw ∧
            rl1.short_limit = S ∧ rl1.long_limit = L ∧ rl1.burst_allowance = b := by
          rw [hrl1, htry]
          exact ⟨hcsw, hclw, hcS, hcL, hcb⟩
        have ihres := ih rl1 grants now hrl1conf.1 hrl1conf.2.1
          hrl1conf.2.2.1 hrl1conf.2.2.2.1 hrl1conf.2.2.2.2
          (by rw [hrl1, htry]; exact hs1) (by rw [hrl1, htry]; exact hl1) hsort
          (fun g hg => le_trans (hle g hg) hTnow) hann hbS hbL htimes'
          (fun e he => hrest_now e he)
        rw [hrun]
        exact ihres

/-- C1: for every sequence of acquire attempts (times non-decreasing), at no
point in time do more than `short_max` grants of the simple `RateLimiter`
fall within any trailing `short_window` interval, nor more than `long_max`
within any trailing `long_window` interval; for the `AdaptiveRateLimiter`
(run over any trace of acquire attempts, `report_429` and `report_success`
events) the count in each trailing window never exceeds the largest
effective limit in force among the grants of that window — in particular
never `int(short_limit * (1 + burst_allowance))` for the short window
(the only relaxation beyond `short_limit` being the HIGH-priority burst:
non-HIGH attempts always get an effective short limit `≤ short_limit`) and
never `long_limit` for the long window. -/
theorem spec_C1_window_invariant :
    (∀ (smax lmax : ℕ) (sw lw : ℚ) (times : List ℚ),
      0 < sw → 0 < lw → times.Pairwise (· ≤ ·) →
      ∀ t : ℚ,
        countWin ((((RateLimiter.init smax sw lmax lw).runAcquires times).2).map Grant.time) t sw ≤ smax ∧
        countWin ((((RateLimiter.init smax sw lmax lw).runAcquires times).2).map Grant.time) t lw ≤ lmax) ∧
    (∀ (S L : ℕ) (sw lw b : ℚ) (evs : List (ℚ × AEvent)),
      0 < sw → 0 < lw → 0 ≤ b → (evs.map Prod.fst).Pairwise (· ≤ ·) →
      ∀ t : ℚ,
        countWin ((((AdaptiveRateLimiter.init S sw L lw b).run evs).2).map Grant.time) t sw ≤
          maxEffWin sw Grant.effS (((AdaptiveRateLimiter.init S sw L lw b).run evs).2) t ∧
        countWin ((((AdaptiveRateLimiter.init S sw L lw b).run evs).2).map Grant.time) t sw ≤
          (⌊(S : ℚ) * (1 + b)⌋).toNat ∧
        countWin ((((AdaptiveRateLimiter.init S sw L lw b).run evs).2).map Grant.time) t lw ≤
          maxEffWin lw Grant.effL (((AdaptiveRateLimiter.init S sw L lw b).run evs).2) t ∧
        countWin ((((AdaptiveRateLimiter.init S sw L lw b).run evs).2).map Grant.time) t lw ≤ L) ∧
    (∀ (rl : AdaptiveRateLimiter) (p : Priority) (now : ℚ), p ≠ Priority.HIGH →
      (rl.tryAcquire p now).effective_short ≤ rl.short_limit) := by
  refine ⟨?_, ?_, ?_⟩
  · intro smax lmax sw lw times hsw hlw hpw t
    cases times with
    | nil =>
      constructor <;> simp [RateLimiter.runAcquires, countWin]
    | cons t0 rest =>
      have hTc : ∀ u ∈ t0 :: rest, t0 ≤ u := by
        intro u hu
        rcases List.mem_cons.mp hu with rfl | hu'
        · exact le_refl _
        · exact (List.pairwise_cons.mp hpw).1 u hu'
      have hinv := RateLimiter.runAcquires_invariant sw lw smax lmax hsw hlw (t0 :: rest)
        (RateLimiter.init smax sw lmax lw) [] t0 rfl rfl rfl rfl rfl rfl
        (by simp) (by simp) (by simp) (winBounded_nil _ _) (winBounded_nil _ _) hpw hTc
      rw [List.nil_append] at hinv
      obtain ⟨hsort, hbS, hbL, hann⟩ := hinv
      constructor
      · exact le_trans (countWin_le_maxEffWin sw Grant.effS _ hsort hbS t)
          (maxEffWin_le _ _ _ _ _ fun x hx => le_of_eq (hann x hx).1)
      · exact le_trans (countWin_le_maxEffWin lw Grant.effL _ hsort hbL t)
          (maxEffWin_le _ _ _ _ _ fun x hx => le_of_eq (hann x hx).2)
  · intro S L sw lw b evs hsw hlw hburst hpw t
    cases evs with
    | nil =>
      refine ⟨?_, ?_, ?_, ?_⟩ <;> simp [AdaptiveRateLimiter.run, countWin]
    | cons e0 rest =>
      have hTc : ∀ e ∈ e0 :: rest, e0.1 ≤ e.1 := by
        intro e he
        rcases List.mem_cons.mp he with rfl | he'
        · exact le_refl _
        · rw [List.map_cons] at hpw
          exact (List.pairwise_cons.mp hpw).1 e.1 (List.mem_map.mpr ⟨e, he', rfl⟩)
      have hinv := AdaptiveRateLimiter.run_invariant sw lw b S L hsw hlw hburst (e0 :: rest)
        (AdaptiveRateLimiter.init S sw L lw b) [] e0.1 rfl rfl rfl rfl rfl rfl rfl
        (by simp) (by simp) (by simp) (winBounded_nil _ _) (winBounded_nil _ _) hpw hTc
      rw [List.nil_append] at hinv
      obtain ⟨hsort, hbS, hbL, hann⟩ := hinv
      refine ⟨countWin_le_maxEffWin sw Grant.effS _ hsort hbS t,
        le_trans (countWin_le_maxEffWin sw Grant.effS _ hsort hbS t)
          (maxEffWin_le _ _ _ _ _ fun x hx => (hann x hx).1),
        countWin_le_maxEffWin lw Grant.effL _ hsort hbL t,
        le_trans (countWin_le_maxEffWin lw Grant.effL _ hsort hbL t)
          (maxEffWin_le _ _ _ _ _ fun x hx => (hann x hx).2)⟩
  · intro rl p now hp
    show (rl.tryAcquire p now).effective_short ≤ rl.short_limit
    have heq : (rl.tryAcquire p now).effective_short = rl.effShort p := by
      simp only [AdaptiveRateLimiter.tryAcquire]
      split <;> rfl
    rw [heq]
    exact rl.effShort_le_of_ne p hp

theorem spec_C1_window_invariant_witness :
    ((0 : ℚ) < 1 ∧ (0 : ℚ) < 120 ∧ (0 : ℚ) ≤ 0.1 ∧
      List.Pairwise (· ≤ ·) [(0 : ℚ), 1/2] ∧ Priority.NORMAL ≠ Priority.HIGH) ∧
    countWin ((((RateLimiter.init 20 1 100 120).runAcquires [0, 1/2]).2).map Grant.time) 1 1 ≤ 20 ∧
    countWin ((((AdaptiveRateLimiter.init 20 1 100 120 0.1).run
        [((0 : ℚ), AEvent.acq Priority.HIGH), ((1 : ℚ)/2, AEvent.rep429)]).2).map Grant.time) 1 1 ≤
      (⌊(20 : ℚ) * (1 + 0.1)⌋).toNat ∧
    ((AdaptiveRateLimiter.init 20 1 100 120 0.1).tryAcquire Priority.NORMAL 0).effective_short ≤
      (AdaptiveRateLimiter.init 20 1 100 120 0.1).short_limit := by
  have hpw1 : List.Pairwise (· ≤ ·) [(0 : ℚ), 1/2] := by
    refine List.pairwise_cons.mpr ⟨?_, List.pairwise_singleton _ _⟩
    intro u hu
    rcases List.mem_singleton.mp hu with rfl
    norm_num
  have hpw2 : List.Pairwise (· ≤ ·)
      (([((0 : ℚ), AEvent.acq Priority.HIGH), ((1 : ℚ)/2, AEvent.rep429)]).map Prod.fst) := by
    refine List.pairwise_cons.mpr ⟨?_, List.pairwise_singleton _ _⟩
    intro u hu
    rcases List.mem_singleton.mp hu with rfl
    norm_num
  refine ⟨⟨by norm_num, by norm_num, by norm_num, hpw1, by intro h; cases h⟩, ?_, ?_, ?_⟩
  · exact (spec_C1_window_invariant.1 20 100 1 120 [0, 1/2] (by norm_num) (by norm_num) hpw1 1).1
  · exact ((spec_C1_window_invariant.2.1 20 100 1 120 0.1
      [((0 : ℚ), AEvent.acq Priority.HIGH), ((1 : ℚ)/2, AEvent.rep429)]
      (by norm_num) (by norm_num) (by norm_num) hpw2 1).2.1)
  · exact spec_C1_window_invariant.2.2 (AdaptiveRateLimiter.init 20 1 100 120 0.1)
      Priority.NORMAL 0 (by intro h; cases h)

/-! ### Adaptive backoff counter and multiplier -/

theorem AdaptiveRateLimiter.report_429_last (rl : AdaptiveRateLimiter) (now : ℚ) :
    (rl.report_429 now).last_429_time = now := by
  unfold AdaptiveRateLimiter.report_429
  split <;> rfl

theorem AdaptiveRateLimiter.report_429_count_within (rl : AdaptiveRateLimiter)
    (now : ℚ) (h : now - rl.last_429_time < 60) :
    (rl.report_429 now).consecutive_429s = rl.consecutive_429s + 1 := by
  unfold AdaptiveRateLimiter.report_429
  rw [if_pos h]

theorem AdaptiveRateLimiter.report_429_count_reset (rl : AdaptiveRateLimiter)
    (now : ℚ) (h : ¬ now - rl.last_429_time < 60) :
    (rl.report_429 now).consecutive_429s = 1 := by
  unfold AdaptiveRateLimiter.report_429
  rw [if_neg h]

theorem reportChain_succ_chain (ts : List ℚ) :
    ∀ rl : AdaptiveRateLimiter, List.Chain' (fun a b : ℚ => b - a < 60) ts →
    List.Chain' (fun a b : ℕ => b = a + 1) (reportChain rl ts) := by
  induction ts with
  | nil =>
    intro rl _
    exact List.chain'_nil
  | cons t1 ts ih =>
    intro rl hch
    cases ts with
    | nil => exact List.chain'_singleton _
    | cons t2 ts' =>
      have hgap : t2 - t1 < 60 := (List.chain'_cons.mp hch).1
      have hch' : List.Chain' (fun a b : ℚ => b - a < 60) (t2 :: ts') :=
        (List.chain'_cons.mp hch).2
      have htail := ih (rl.report_429 t1) hch'
      show List.Chain' (fun a b : ℕ => b = a + 1)
        ((rl.report_429 t1).consecutive_429s :: reportChain (rl.report_429 t1) (t2 :: ts'))
      have hhead : ((rl.report_429 t1).report_429 t2).consecutive_429s =
          (rl.report_429 t1).consecutive_429s + 1 := by
        apply AdaptiveRateLimiter.report_429_count_within
        rw [AdaptiveRateLimiter.report_429_last]
        linarith
      show List.Chain' (fun a b : ℕ => b = a + 1)
        ((rl.report_429 t1).consecutive_429s ::
          ((rl.report_429 t1).report_429 t2).consecutive_429s ::
            reportChain ((rl.report_429 t1).report_429 t2) ts')
      exact List.chain'_cons.mpr ⟨hhead, htail⟩

theorem reportChain_pos (ts : List ℚ) :
    ∀ rl : AdaptiveRateLimiter, ∀ c ∈ reportChain rl ts, 1 ≤ c := by
  induction ts with
  | nil =>
    intro rl c hc
    exact absurd hc (List.not_mem_nil c)
  | cons t1 ts ih =>
    intro rl c hc
    rcases List.mem_cons.mp hc with rfl | hc'
    · by_cases h : t1 - rl.last_429_time < 60
      · rw [AdaptiveRateLimiter.report_429_count_within rl t1 h]
        exact Nat.le_add_left _ _
      · rw [AdaptiveRateLimiter.report_429_count_reset rl t1 h]
    · exact ih (rl.report_429 t1) c hc'

/-- C2: the multiplier is recomputed on every acquire-loop iteration as
`min(2, 1 + 0.2·consecutive_429s)` when failures are active, else as
`max(1, multiplier · 0.95)`; every `report_429` sequence whose consecutive
gaps are below 60 seconds yields counters that each exceed the previous by
one (all positive), so the corresponding multipliers are non-decreasing and
capped at 2; and a failure reported more than 60 seconds after the previous
one resets the consecutive count to 1. -/
theorem spec_C2_backoff_multiplier :
    (∀ (rl : AdaptiveRateLimiter) (p : Priority) (now : ℚ),
      ((rl.tryAcquire p now).rl).backoff_multiplier =
        (if 0 < rl.consecutive_429s then min 2 (1 + (rl.consecutive_429s : ℚ) * 0.2)
         else max 1 (rl.backoff_multiplier * 0.95))) ∧
    (∀ (rl : AdaptiveRateLimiter) (ts : List ℚ),
      List.Chain' (fun a b : ℚ => b - a < 60) ts →
      List.Chain' (· ≤ ·) ((reportChain rl ts).map (fun c : ℕ => min 2 (1 + (c : ℚ) * 0.2))) ∧
      (∀ m ∈ (reportChain rl ts).map (fun c : ℕ => min 2 (1 + (c : ℚ) * 0.2)), m ≤ 2) ∧
      (∀ c ∈ reportChain rl ts, 0 < c)) ∧
    (∀ (rl : AdaptiveRateLimiter) (now : ℚ),
      60 < now - rl.last_429_time → (rl.report_429 now).consecutive_429s = 1) := by
  refine ⟨?_, ?_, ?_⟩
  · intro rl p now
    have heq : ((rl.tryAcquire p now).rl).backoff_multiplier = rl.newMult := by
      simp only [AdaptiveRateLimiter.tryAcquire]
      split <;> rfl
    rw [heq]
    rfl
  · intro rl ts hch
    have hsucc := reportChain_succ_chain ts rl hch
    refine ⟨?_, ?_, ?_⟩
    · refine (List.chain'_map (fun c : ℕ => min 2 (1 + (c : ℚ) * 0.2))).mpr ?_
      refine hsucc.imp ?_
      intro a b hab
      subst hab
      apply min_le_min (le_refl (2 : ℚ))
      push_cast
      linarith
    · intro m hm
      obtain ⟨c, _, rfl⟩ := List.mem_map.mp hm
      exact min_le_left _ _
    · intro c hc
      exact reportChain_pos ts rl c hc
  · intro rl now h
    apply AdaptiveRateLimiter.report_429_count_reset
    linarith

theorem spec_C2_backoff_multiplier_witness :
    List.Chain' (fun a b : ℚ => b - a < 60) [(0 : ℚ), 30] ∧
    (60 : ℚ) < 100 - (AdaptiveRateLimiter.init 20 1 100 120 0.1).last_429_time ∧
    List.Chain' (· ≤ ·) ((reportChain (AdaptiveRateLimiter.init 20 1 100 120 0.1)
      [(0 : ℚ), 30]).map (fun c : ℕ => min 2 (1 + (c : ℚ) * 0.2))) ∧
    ((AdaptiveRateLimiter.init 20 1 100 120 0.1).report_429 100).consecutive_429s = 1 := by
  have hch : List.Chain' (fun a b : ℚ => b - a < 60) [(0 : ℚ), 30] := by
    refine List.chain'_cons.mpr ⟨by norm_num, List.chain'_singleton _⟩
  have hgap : (60 : ℚ) < 100 - (AdaptiveRateLimiter.init 20 1 100 120 0.1).last_429_time := by
    show (60 : ℚ) < 100 - 0
    norm_num
  exact ⟨hch, hgap,
    (spec_C2_backoff_multiplier.2.1 (AdaptiveRateLimiter.init 20 1 100 120 0.1) [0, 30] hch).1,
    spec_C2_backoff_multiplier.2.2 (AdaptiveRateLimiter.init 20 1 100 120 0.1) 100 hgap⟩

/-! ### `request_with_backoff` (simple path) -/

/-- C5: in `request_with_backoff`, every 429 response causes a sleep of
exactly the `Retry-After` value when the header is present and otherwise
of the current exponential backoff, which starts at 1 and doubles after
each retried attempt up to the 16-second cap (so attempt `i` would sleep
`min(2^i, 16)` absent the header); in particular the scenario
[429 Retry-After 2, 429 Retry-After 2, 200] sleeps exactly twice for
2 seconds and returns the 200 response. -/
theorem spec_C5_backoff_sleeps :
    (∀ oracle : ℕ → RwbResponse,
      (∀ i, i < 6 → (oracle i).status_code = 429) →
      (request_with_backoff oracle).sleeps =
        (List.range 6).map (fun i => ((oracle i).retryAfter).getD (min ((2 : ℚ) ^ i) 16))) ∧
    (∀ oracle : ℕ → RwbResponse,
      (oracle 0).status_code = 429 → (oracle 0).retryAfter = some 2 →
      (oracle 1).status_code = 429 → (oracle 1).retryAfter = some 2 →
      (oracle 2).status_code = 200 →
      (request_with_backoff oracle).sleeps = [2, 2] ∧
      (request_with_backoff oracle).returned = some (oracle 2) ∧
      (request_with_backoff oracle).attempts = 3) := by
  constructor
  · intro oracle h
    have h0 := h 0 (by norm_num)
    have h1 := h 1 (by norm_num)
    have h2 := h 2 (by norm_num)
    have h3 := h 3 (by norm_num)
    have h4 := h 4 (by norm_num)
    have h5 := h 5 (by norm_num)
    norm_num [request_with_backoff, rwbGo, h0, h1, h2, h3, h4, h5, List.range_succ]
  · intro oracle h0 h0r h1 h1r h2
    refine ⟨?_, ?_, ?_⟩ <;>
      norm_num [request_with_backoff, rwbGo, h0, h0r, h1, h1r, h2]

theorem spec_C5_backoff_sleeps_witness :
    (request_with_backoff
        (fun i => if i = 2 then ⟨200, none, 7⟩ else ⟨429, some 2, 0⟩)).sleeps = [2, 2] ∧
    (request_with_backoff
        (fun i => if i = 2 then ⟨200, none, 7⟩ else ⟨429, some 2, 0⟩)).returned =
      some ⟨200, none, 7⟩ ∧
    (request_with_backoff (fun _ => ⟨429, none, 0⟩)).sleeps =
      (List.range 6).map (fun i => ((fun _ => (⟨429, none, 0⟩ : RwbResponse)) i).retryAfter.getD
        (min ((2 : ℚ) ^ i) 16)) := by
  have hmain := spec_C5_backoff_sleeps.2
    (fun i => if i = 2 then ⟨200, none, 7⟩ else ⟨429, some 2, 0⟩)
    (by norm_num) (by norm_num) (by norm_num) (by norm_num) (by norm_num)
  refine ⟨hmain.1, ?_, ?_⟩
  · have h := hmain.2.1
    norm_num at h
    exact h
  · exact spec_C5_backoff_sleeps.1 (fun _ => ⟨429, none, 0⟩) (fun i _ => rfl)

/-- C6: a request whose every attempt returns HTTP 500 is attempted exactly
6 times (the configured `max_attempts`) by `request_with_backoff`, and the
loop then terminates yielding the final 500 response to the caller — never
an infinite loop and never a 200-looking result. -/
theorem spec_C6_retry_termination (oracle : ℕ → RwbResponse)
    (h : ∀ i, (oracle i).status_code = 500) :
    (request_with_backoff oracle).attempts = 6 ∧
    (request_with_backoff oracle).returned = some (oracle 5) ∧
    (oracle 5).status_code = 500 := by
  refine ⟨?_, ?_, h 5⟩ <;>
    norm_num [request_with_backoff, rwbGo, h 0, h 1, h 2, h 3, h 4, h 5]

theorem spec_C6_retry_termination_witness :
    (request_with_backoff (fun _ => ⟨500, none, 3⟩)).attempts = 6 ∧
    (request_with_backoff (fun _ => ⟨500, none, 3⟩)).returned = some ⟨500, none, 3⟩ := by
  have h := spec_C6_retry_termination (fun _ => ⟨500, none, 3⟩) (fun i => rfl)
  exact ⟨h.1, h.2.1⟩

/-! ### `LRUCache` helper lemmas -/

theorem odAssign_find (l : List (String × CacheEntry V)) (k : String)
    (e : CacheEntry V) :
    (odAssign k e l).find? (fun p => decide (p.1 = k)) = some (k, e) := by
  induction l with
  | nil =>
    simp [odAssign, List.find?]
  | cons p rest ih =>
    by_cases h : p.1 = k
    · simp [odAssign, h, List.find?]
    · simp only [odAssign, if_neg h]
      rw [List.find?_cons_of_neg _ (by simpa using h)]
      exact ih

theorem find?_append_of_none {α : Type _} (l1 l2 : List α) (p : α → Bool)
    (h : l1.find? p = none) : (l1 ++ l2).find? p = l2.find? p := by
  induction l1 with
  | nil => rfl
  | cons a l1 ih =>
    have hpa : ¬ p a = true := by
      intro hpa
      rw [List.find?_cons_of_pos _ hpa] at h
      cases h
    have h' : l1.find? p = none := by
      rw [List.find?_cons_of_neg _ hpa] at h
      exact h
    rw [List.cons_append, List.find?_cons_of_neg _ hpa]
    exact ih h'

theorem filter_ne_key_find_none (l : List (String × CacheEntry V)) (k : String) :
    (l.filter (fun q => decide (q.1 ≠ k))).find? (fun p => decide (p.1 = k)) = none := by
  rw [List.find?_eq_none]
  intro x hx
  have hne : x.1 ≠ k := by simpa using (List.mem_filter.mp hx).2
  simpa using hne

theorem odAssign_filter_ne (l : List (String × CacheEntry V)) (k : String)
    (e : CacheEntry V) :
    (odAssign k e l).filter (fun q => decide (q.1 ≠ k)) =
      l.filter (fun q => decide (q.1 ≠ k)) := by
  induction l with
  | nil => simp [odAssign]
  | cons p rest ih =>
    by_cases h : p.1 = k
    · simp [odAssign, h, List.filter_cons]
    · simp only [odAssign, if_neg h]
      rw [List.filter_cons_of_pos (by simpa using h),
        List.filter_cons_of_pos (by simpa using h), ih]

theorem map_fst_filter_ne (l : List (String × CacheEntry V)) (k : String) :
    (l.filter (fun q => decide (q.1 ≠ k))).map Prod.fst =
      (l.map Prod.fst).filter (fun x => decide (x ≠ k)) := by
  induction l with
  | nil => rfl
  | cons p rest ih =>
    by_cases h : p.1 = k
    · rw [List.filter_cons_of_neg (by simpa using h), List.map_cons,
        List.filter_cons_of_neg (by simpa using h)]
      exact ih
    · rw [List.filter_cons_of_pos (by simpa using h), List.map_cons, List.map_cons,
        List.filter_cons_of_pos (by simpa using h), ih]

theorem odAssign_map_fst_of_mem (l : List (String × CacheEntry V)) (k : String)
    (e : CacheEntry V) (h : k ∈ l.map Prod.fst) :
    (odAssign k e l).map Prod.fst = l.map Prod.fst := by
  induction l with
  | nil => cases h
  | cons p rest ih =>
    by_cases hp : p.1 = k
    · simp [odAssign, hp]
    · rw [List.map_cons] at h
      rcases List.mem_cons.mp h with h' | h'
      · exact absurd h'.symm hp
      · simp only [odAssign, if_neg hp, List.map_cons, ih h']

theorem odAssign_of_not_mem (l : List (String × CacheEntry V)) (k : String)
    (e : CacheEntry V) (h : k ∉ l.map Prod.fst) :
    odAssign k e l = l ++ [(k, e)] := by
  induction l with
  | nil => rfl
  | cons p rest ih =>
    have hp : p.1 ≠ k := by
      intro hp
      exact h (by rw [List.map_cons, hp]; exact List.mem_cons_self _ _)
    have h' : k ∉ rest.map Prod.fst := by
      intro h'
      exact h (by rw [List.map_cons]; exact List.mem_cons_of_mem _ h')
    simp only [odAssign, if_neg hp, List.cons_append, ih h']

theorem filter_ne_eq_self_of_not_mem (l : List (String × CacheEntry V)) (k : String)
    (h : k ∉ l.map Prod.fst) :
    l.filter (fun q => decide (q.1 ≠ k)) = l := by
  apply List.filter_eq_self.mpr
  intro p hp
  have : p.1 ≠ k := by
    intro hk
    exact h (by rw [← hk]; exact List.mem_map.mpr ⟨p, hp, rfl⟩)
  simpa using this

theorem odMoveToEnd_append_fresh (l : List (String × CacheEntry V)) (k : String)
    (e : CacheEntry V) (h : k ∉ l.map Prod.fst) :
    odMoveToEnd k (l ++ [(k, e)]) = l ++ [(k, e)] := by
  have hnone : l.find? (fun p => decide (p.1 = k)) = none := by
    rw [List.find?_eq_none]
    intro x hx
    have : x.1 ≠ k := by
      intro hk
      exact h (by rw [← hk]; exact List.mem_map.mpr ⟨x, hx, rfl⟩)
    simpa using this
  have hfind : (l ++ [(k, e)]).find? (fun p => decide (p.1 = k)) = some (k, e) := by
    rw [find?_append_of_none _ _ _ hnone]
    simp [List.find?]
  unfold odMoveToEnd
  rw [hfind]
  rw [List.filter_append, filter_ne_eq_self_of_not_mem l k h]
  simp

theorem length_filter_ne_of_nodup (l : List (String × CacheEntry V)) (k : String)
    (hnd : (l.map Prod.fst).Nodup) (hmem : k ∈ l.map Prod.fst) :
    (l.filter (fun q => decide (q.1 ≠ k))).length + 1 = l.length := by
  induction l with
  | nil => cases hmem
  | cons p rest ih =>
    rw [List.map_cons, List.nodup_cons] at hnd
    by_cases hp : p.1 = k
    · rw [List.filter_cons_of_neg (by simpa using hp)]
      have hnotin : k ∉ rest.map Prod.fst := by
        rw [← hp]
        exact hnd.1
      rw [filter_ne_eq_self_of_not_mem rest k hnotin]
      simp
    · rw [List.map_cons] at hmem
      rcases List.mem_cons.mp hmem with h' | h'
      · exact absurd h'.symm hp
      · rw [List.filter_cons_of_pos (by simpa using hp), List.length_cons,
          List.length_cons, ih hnd.2 h']

theorem LRUCache.set_cache_of_mem (c : LRUCache V) (now : ℚ) (k : String)
    (v : V) (ttl : ℚ) (hmem : k ∈ c.cache.map Prod.fst) :
    (c.set now k v ttl).cache =
      c.cache.filter (fun q => decide (q.1 ≠ k)) ++ [(k, ⟨v, now + ttl⟩)] := by
  have hcond : ¬ (c.max_size ≤ c.cache.length ∧ k ∉ c.cache.map Prod.fst) := by
    rintro ⟨_, hk⟩
    exact hk hmem
  simp only [LRUCache.set, if_neg hcond]
  unfold odMoveToEnd
  rw [odAssign_find, odAssign_filter_ne]

theorem LRUCache.set_cache_of_not_mem_room (c : LRUCache V) (now : ℚ) (k : String)
    (v : V) (ttl : ℚ) (hmem : k ∉ c.cache.map Prod.fst)
    (hroom : c.cache.length < c.max_size) :
    (c.set now k v ttl).cache = c.cache ++ [(k, ⟨v, now + ttl⟩)] := by
  have hcond : ¬ (c.max_size ≤ c.cache.length ∧ k ∉ c.cache.map Prod.fst) := by
    rintro ⟨h1, _⟩
    exact absurd h1 (not_le.mpr hroom)
  simp only [LRUCache.set, if_neg hcond]
  rw [odAssign_of_not_mem _ _ _ hmem, odMoveToEnd_append_fresh _ _ _ hmem]

theorem LRUCache.set_cache_of_not_mem_full (c : LRUCache V) (now : ℚ) (k : String)
    (v : V) (ttl : ℚ) (hmem : k ∉ c.cache.map Prod.fst)
    (hfull : c.max_size ≤ c.cache.length) :
    (c.set now k v ttl).cache = c.cache.drop 1 ++ [(k, ⟨v, now + ttl⟩)] := by
  have hcond : c.max_size ≤ c.cache.length ∧ k ∉ c.cache.map Prod.fst := ⟨hfull, hmem⟩
  have hmem' : k ∉ (c.cache.drop 1).map Prod.fst := by
    intro hk
    obtain ⟨p, hp, rfl⟩ := List.mem_map.mp hk
    exact hmem (List.mem_map.mpr ⟨p, List.drop_subset 1 c.cache hp, rfl⟩)
  simp only [LRUCache.set, if_pos hcond]
  rw [odAssign_of_not_mem _ _ _ hmem', odMoveToEnd_append_fresh _ _ _ hmem']

theorem LRUCache.set_find (c : LRUCache V) (now : ℚ) (k : String) (v : V) (ttl : ℚ) :
    ((c.set now k v ttl).cache).find? (fun p => decide (p.1 = k)) =
      some (k, ⟨v, now + ttl⟩) := by
  by_cases hmem : k ∈ c.cache.map Prod.fst
  · rw [LRUCache.set_cache_of_mem c now k v ttl hmem,
      find?_append_of_none _ _ _ (filter_ne_key_find_none _ _)]
    simp [List.find?]
  · have hnone : ∀ l : List (String × CacheEntry V), k ∉ l.map Prod.fst →
        l.find? (fun p => decide (p.1 = k)) = none := by
      intro l hl
      rw [List.find?_eq_none]
      intro x hx
      have : x.1 ≠ k := by
        intro hk
        exact hl (by rw [← hk]; exact List.mem_map.mpr ⟨x, hx, rfl⟩)
      simpa using this
    by_cases hfull : c.max_size ≤ c.cache.length
    · rw [LRUCache.set_cache_of_not_mem_full c now k v ttl hmem hfull,
        find?_append_of_none _ _ _ (hnone _ (by
          intro hk
          obtain ⟨p, hp, rfl⟩ := List.mem_map.mp hk
          exact hmem (List.mem_map.mpr ⟨p, List.drop_subset 1 c.cache hp, rfl⟩)))]
      simp [List.find?]
    · rw [LRUCache.set_cache_of_not_mem_room c now k v ttl hmem (not_le.mp hfull),
        find?_append_of_none _ _ _ (hnone _ hmem)]
      simp [List.find?]

/-- C7: `set(k, v, ttl)` followed by `get(k)` within the ttl returns `v`;
an entry found by `get` is visible exactly while `now ≤ expires_at`
(a hit promotes it and increments `hits`), and a `get` after expiry
returns absent, increments the miss counter and removes the entry. -/
theorem spec_C7_cache_get_set :
    (∀ (V : Type) (c : LRUCache V) (now now' : ℚ) (k : String) (v : V) (ttl : ℚ),
      now' ≤ now + ttl →
      ((c.set now k v ttl).get now' k).1 = some v) ∧
    (∀ (V : Type) (c : LRUCache V) (k : String) (p : String × CacheEntry V) (now : ℚ),
      c.cache.find? (fun q => decide (q.1 = k)) = some p →
      (now ≤ p.2.expires_at →
        (c.get now k).1 = some p.2.data ∧ (c.get now k).2.hits = c.hits + 1) ∧
      (p.2.expires_at < now →
        (c.get now k).1 = none ∧ (c.get now k).2.misses = c.misses + 1 ∧
        (c.get now k).2.cache.find? (fun q => decide (q.1 = k)) = none)) := by
  constructor
  · intro V c now now' k v ttl h
    have hfind := LRUCache.set_find c now k v ttl
    simp only [LRUCache.get, hfind]
    have hexp : ((⟨v, now + ttl⟩ : CacheEntry V).is_expired now') = false := by
      simp [CacheEntry.is_expired, not_lt.mpr h]
    simp [hexp]
  · intro V c k p now hfind
    constructor
    · intro hvis
      have hexp : (p.2.is_expired now) = false := by
        simp [CacheEntry.is_expired, not_lt.mpr hvis]
      constructor <;> simp [LRUCache.get, hfind, hexp]
    · intro hexpired
      have hexp : (p.2.is_expired now) = true := by
        simp [CacheEntry.is_expired, hexpired]
      refine ⟨?_, ?_, ?_⟩ <;> simp [LRUCache.get, hfind, hexp, filter_ne_key_find_none]

theorem spec_C7_cache_get_set_witness :
    ((((LRUCache.empty ℕ 5).set 0 (r"k") 7 60).get 0 (r"k")).1) = some 7 ∧
    (((⟨[((r"k"), ⟨7, 10⟩)], 5, 0, 0⟩ : LRUCache ℕ).get 20 (r"k")).1 = none ∧
      ((⟨[((r"k"), ⟨7, 10⟩)], 5, 0, 0⟩ : LRUCache ℕ).get 20 (r"k")).2.misses = 1) := by
  constructor
  · exact spec_C7_cache_get_set.1 ℕ (LRUCache.empty ℕ 5) 0 0 (r"k") 7 60 (by norm_num)
  · have h := (spec_C7_cache_get_set.2 ℕ (⟨[((r"k"), ⟨7, 10⟩)], 5, 0, 0⟩ : LRUCache ℕ)
      (r"k") ((r"k"), ⟨7, 10⟩) 20 (by decide)).2 (by norm_num)
    exact ⟨h.1, h.2.1⟩

/-! ### `LRUCache` size and eviction lemmas -/

theorem LRUCache.set_max_size (c : LRUCache V) (now : ℚ) (k : String) (v : V)
    (ttl : ℚ) : (c.set now k v ttl).max_size = c.max_size := rfl

theorem LRUCache.get_max_size (c : LRUCache V) (now : ℚ) (k : String) :
    ((c.get now k).2).max_size = c.max_size := by
  unfold LRUCache.get
  cases hf : c.cache.find? (fun p => decide (p.1 = k)) with
  | none => rfl
  | some p =>
    by_cases he : p.2.is_expired now = true
    · simp [he]
    · simp [he]

theorem LRUCache.set_wf_len (c : LRUCache V) (now : ℚ) (k : String) (v : V)
    (ttl : ℚ) (hwf : c.wf) (hmax : 1 ≤ c.max_size)
    (hlen : c.cache.length ≤ c.max_size) :
    (c.set now k v ttl).wf ∧ (c.set now k v ttl).cache.length ≤ c.max_size := by
  by_cases hmem : k ∈ c.cache.map Prod.fst
  · rw [LRUCache.wf, LRUCache.set_cache_of_mem c now k v ttl hmem]
    constructor
    · rw [List.map_append, map_fst_filter_ne]
      refine List.Nodup.append (List.Nodup.filter _ hwf) (List.nodup_singleton _) ?_
      intro a ha hak
      rcases List.mem_singleton.mp hak with rfl
      have := (List.mem_filter.mp ha).2
      simp at this
    · rw [List.length_append, List.length_singleton]
      have h1 := length_filter_ne_of_nodup c.cache k hwf hmem
      omega
  · by_cases hfull : c.max_size ≤ c.cache.length
    · rw [LRUCache.wf, LRUCache.set_cache_of_not_mem_full c now k v ttl hmem hfull]
      constructor
      · rw [List.map_append]
        refine List.Nodup.append ?_ (List.nodup_singleton _) ?_
        · exact List.Nodup.sublist (List.Sublist.map Prod.fst (List.drop_sublist 1 c.cache)) hwf
        · intro a ha hak
          rcases List.mem_singleton.mp hak with rfl
          obtain ⟨p, hp, rfl⟩ := List.mem_map.mp ha
          exact hmem (List.mem_map.mpr ⟨p, List.drop_subset 1 c.cache hp, rfl⟩)
      · rw [List.length_append, List.length_singleton, List.length_drop]
        omega
    · rw [LRUCache.wf, LRUCache.set_cache_of_not_mem_room c now k v ttl hmem (not_le.mp hfull)]
      constructor
      · rw [List.map_append]
        refine List.Nodup.append hwf (List.nodup_singleton _) ?_
        intro a ha hak
        rcases List.mem_singleton.mp hak with rfl
        exact hmem ha
      · rw [List.length_append, List.length_singleton]
        omega

theorem LRUCache.get_wf_len (c : LRUCache V) (now : ℚ) (k : String) (hwf : c.wf) :
    ((c.get now k).2).wf ∧ ((c.get now k).2).cache.length ≤ c.cache.length := by
  cases hf : c.cache.find? (fun p => decide (p.1 = k)) with
  | none =>
    have hcache : (c.get now k).2.cache = c.cache := by
      simp [LRUCache.get, hf]
    constructor
    · rw [LRUCache.wf, hcache]
      exact hwf
    · rw [hcache]
  | some p =>
    have hpk : p.1 = k := by
      have := List.find?_some hf
      simpa using this
    have hpmem : p ∈ c.cache := List.mem_of_find?_eq_some hf
    have hkmem : k ∈ c.cache.map Prod.fst := by
      rw [← hpk]
      exact List.mem_map.mpr ⟨p, hpmem, rfl⟩
    by_cases he : p.2.is_expired now = true
    · have hcache : (c.get now k).2.cache = c.cache.filter (fun q => decide (q.1 ≠ k)) := by
        simp [LRUCache.get, hf, he]
      constructor
      · rw [LRUCache.wf, hcache, map_fst_filter_ne]
        exact List.Nodup.filter _ hwf
      · rw [hcache]
        exact List.length_filter_le _ _
    · have hcache : (c.get now k).2.cache = odMoveToEnd k c.cache := by
        simp [LRUCache.get, hf, he]
      have hmv : odMoveToEnd k c.cache =
          c.cache.filter (fun q => decide (q.1 ≠ k)) ++ [p] := by
        unfold odMoveToEnd
        rw [hf]
      constructor
      · rw [LRUCache.wf, hcache, hmv, List.map_append, map_fst_filter_ne]
        refine List.Nodup.append (List.Nodup.filter _ hwf) (List.nodup_singleton _) ?_
        intro a ha hak
        rcases List.mem_singleton.mp hak with rfl
        have h2 := (List.mem_filter.mp ha).2
        rw [hpk] at h2
        simp at h2
      · rw [hcache, hmv, List.length_append, List.length_singleton]
        have h1 := length_filter_ne_of_nodup c.cache k hwf hkmem
        omega

theorem insertAll_append (c : LRUCache V) (now : ℚ) (v : V) (ttl : ℚ)
    (l1 l2 : List String) :
    insertAll c now v ttl (l1 ++ l2) = insertAll (insertAll c now v ttl l1) now v ttl l2 := by
  induction l1 generalizing c with
  | nil => rfl
  | cons k l1 ih =>
    rw [List.cons_append]
    show insertAll (c.set now k v ttl) now v ttl (l1 ++ l2) = _
    rw [ih]
    rfl

theorem insertAll_fresh (now : ℚ) (v : V) (ttl : ℚ) :
    ∀ (ks : List String) (c : LRUCache V),
    (∀ k ∈ ks, k ∉ c.cache.map Prod.fst) → ks.Nodup →
    c.cache.length + ks.length ≤ c.max_size →
    (insertAll c now v ttl ks).cache =
      c.cache ++ ks.map (fun k => (k, (⟨v, now + ttl⟩ : CacheEntry V))) ∧
    (insertAll c now v ttl ks).max_size = c.max_size := by
  intro ks
  induction ks with
  | nil =>
    intro c _ _ _
    exact ⟨by simp [insertAll], rfl⟩
  | cons k ks ih =>
    intro c hfresh hnd hcap
    have hkfresh : k ∉ c.cache.map Prod.fst := hfresh k (List.mem_cons_self _ _)
    have hroom : c.cache.length < c.max_size := by
      have := hcap
      rw [List.length_cons] at this
      omega
    have hset := LRUCache.set_cache_of_not_mem_room c now k v ttl hkfresh hroom
    show (insertAll (c.set now k v ttl) now v ttl ks).cache = _ ∧
      (insertAll (c.set now k v ttl) now v ttl ks).max_size = _
    have hihres := ih (c.set now k v ttl)
      (by
        intro k' hk'
        rw [hset, List.map_append]
        intro hk'mem
        rcases List.mem_append.mp hk'mem with h' | h'
        · exact hfresh k' (List.mem_cons_of_mem _ hk') h'
        · rcases List.mem_singleton.mp (by simpa using h') with rfl
          exact (List.nodup_cons.mp hnd).1 hk'
        )
      (List.nodup_cons.mp hnd).2
      (by
        rw [hset, LRUCache.set_max_size, List.length_append, List.length_singleton]
        rw [List.length_cons] at hcap
        omega)
    rw [hihres.1, hihres.2, hset, LRUCache.set_max_size]
    constructor
    · simp
    · rfl

theorem runOps_invariant (ops : List (COp V)) :
    ∀ c : LRUCache V, c.wf → c.cache.length ≤ c.max_size → 1 ≤ c.max_size →
    (runOps c ops).wf ∧ (runOps c ops).cache.length ≤ (runOps c ops).max_size ∧
    (runOps c ops).max_size = c.max_size := by
  induction ops with
  | nil =>
    intro c hwf hlen hmax
    exact ⟨hwf, hlen, rfl⟩
  | cons op ops ih =>
    intro c hwf hlen hmax
    show (runOps (applyOp c op) ops).wf ∧ _ ∧ _
    have hstep : (applyOp c op).wf ∧ (applyOp c op).cache.length ≤ (applyOp c op).max_size ∧
        (applyOp c op).max_size = c.max_size := by
      cases op with
      | set now k v ttl =>
        show (c.set now k v ttl).wf ∧ (c.set now k v ttl).cache.length ≤
          (c.set now k v ttl).max_size ∧ (c.set now k v ttl).max_size = c.max_size
        have h := LRUCache.set_wf_len c now k v ttl hwf hmax hlen
        exact ⟨h.1, by rw [LRUCache.set_max_size]; exact h.2, LRUCache.set_max_size c now k v ttl⟩
      | get now k =>
        show ((c.get now k).2).wf ∧ ((c.get now k).2).cache.length ≤
          ((c.get now k).2).max_size ∧ ((c.get now k).2).max_size = c.max_size
        have h := LRUCache.get_wf_len c now k hwf
        refine ⟨h.1, ?_, LRUCache.get_max_size c now k⟩
        rw [LRUCache.get_max_size]
        exact le_trans h.2 hlen
    have hres := ih (applyOp c op) hstep.1 hstep.2.1 (by rw [hstep.2.2]; exact hmax)
    exact ⟨hres.1, hres.2.1, hres.2.2.trans hstep.2.2⟩

/-- C4: at capacity, `set` evicts exactly the least-recently-used (front)
entry if and only if the key is new — updating an existing key never
evicts; inserting `max_size + 1` distinct keys into a fresh cache with no
interleaved reads evicts exactly the first-inserted key and leaves exactly
`max_size` entries; and under arbitrary operation sequences the size never
exceeds `max_size`. -/
theorem spec_C4_lru_eviction :
    (∀ (V : Type) (c : LRUCache V) (now : ℚ) (k : String) (v : V) (ttl : ℚ),
      c.wf → c.cache.length = c.max_size → 1 ≤ c.max_size →
      (k ∈ c.cache.map Prod.fst →
        (c.set now k v ttl).cache.length = c.max_size ∧
        (∀ k', k' ∈ (c.set now k v ttl).cache.map Prod.fst ↔ k' ∈ c.cache.map Prod.fst)) ∧
      (k ∉ c.cache.map Prod.fst →
        (c.set now k v ttl).cache.map Prod.fst = (c.cache.map Prod.fst).drop 1 ++ [k] ∧
        (c.set now k v ttl).cache.length = c.max_size)) ∧
    (∀ (V : Type) (maxN : ℕ) (k0 : String) (ks : List String) (now : ℚ) (v : V) (ttl : ℚ),
      1 ≤ maxN → (k0 :: ks).Nodup → (k0 :: ks).length = maxN + 1 →
      (insertAll (LRUCache.empty V maxN) now v ttl (k0 :: ks)).cache.map Prod.fst = ks ∧
      (insertAll (LRUCache.empty V maxN) now v ttl (k0 :: ks)).cache.length = maxN ∧
      k0 ∉ (insertAll (LRUCache.empty V maxN) now v ttl (k0 :: ks)).cache.map Prod.fst) ∧
    (∀ (V : Type) (maxN : ℕ) (ops : List (COp V)), 1 ≤ maxN →
      (runOps (LRUCache.empty V maxN) ops).cache.length ≤ maxN) := by
  refine ⟨?_, ?_, ?_⟩
  · intro V c now k v ttl hwf hlen hmax
    constructor
    · intro hmem
      have hset := LRUCache.set_cache_of_mem c now k v ttl hmem
      constructor
      · rw [hset, List.length_append, List.length_singleton]
        have h1 := length_filter_ne_of_nodup c.cache k hwf hmem
        omega
      · intro k'
        rw [hset, List.map_append, map_fst_filter_ne]
        constructor
        · intro hk'
          rcases List.mem_append.mp hk' with h' | h'
          · exact (List.mem_filter.mp h').1
          · rcases List.mem_singleton.mp (by simpa using h') with rfl
            exact hmem
        · intro hk'
          by_cases hkk : k' = k
          · subst hkk
            exact List.mem_append.mpr (Or.inr (by simp))
          · exact List.mem_append.mpr (Or.inl (List.mem_filter.mpr ⟨hk', by simpa using hkk⟩))
    · intro hmem
      have hfull : c.max_size ≤ c.cache.length := le_of_eq hlen.symm
      have hset := LRUCache.set_cache_of_not_mem_full c now k v ttl hmem hfull
      constructor
      · rw [hset, List.map_append]
        congr 1
        · induction c.cache with
          | nil => rfl
          | cons p rest _ => simp
      · rw [hset, List.length_append, List.length_singleton, List.length_drop]
        omega
  · intro V maxN k0 ks now v ttl hmax hnd hlen
    have hkslen : ks.length = maxN := by
      rw [List.length_cons] at hlen
      omega
    have hne : ks ≠ [] := by
      intro h
      rw [h] at hkslen
      simp at hkslen
      omega
    have hksdec : ks.dropLast ++ [ks.getLast hne] = ks := List.dropLast_append_getLast hne
    have hdec : k0 :: ks = (k0 :: ks.dropLast) ++ [ks.getLast hne] := by
      conv_lhs => rw [← hksdec]
      rfl

    have hIA : insertAll (LRUCache.empty V maxN) now v ttl (k0 :: ks) =
        (insertAll (LRUCache.empty V maxN) now v ttl (k0 :: ks.dropLast)).set now
          (ks.getLast hne) v ttl := by
      rw [hdec, insertAll_append]
      rfl
    have hnd0 : k0 ∉ ks := (List.nodup_cons.mp hnd).1
    have hndks : ks.Nodup := (List.nodup_cons.mp hnd).2
    have hnd' : (k0 :: ks.dropLast).Nodup := by
      have hsub : List.Sublist (k0 :: ks.dropLast) (k0 :: ks) :=
        List.Sublist.cons₂ k0 (List.dropLast_sublist ks)
      exact List.Nodup.sublist hsub hnd
    have hlen' : (k0 :: ks.dropLast).length = maxN := by
      rw [List.length_cons, List.length_dropLast]
      omega
    have hfr := insertAll_fresh now v ttl (k0 :: ks.dropLast) (LRUCache.empty V maxN)
      (by intro k' _ hk'; exact absurd hk' (by simp [LRUCache.empty]))
      hnd'
      (by simp [LRUCache.empty]; omega)
    set c1 := insertAll (LRUCache.empty V maxN) now v ttl (k0 :: ks.dropLast) with hc1
    have hc1cache : c1.cache =
        (k0 :: ks.dropLast).map (fun k => (k, (⟨v, now + ttl⟩ : CacheEntry V))) := by
      rw [hfr.1]
      rfl
    have hc1max : c1.max_size = maxN := hfr.2
    have hc1keys : c1.cache.map Prod.fst = k0 :: ks.dropLast := by
      rw [hc1cache, List.map_map]
      have hcomp : (Prod.fst ∘ fun k : String => (k, (⟨v, now + ttl⟩ : CacheEntry V))) = id := rfl
      rw [hcomp, List.map_id]
    have hc1len : c1.cache.length = maxN := by
      rw [hc1cache, List.length_map]
      exact hlen'
    have hkLmem : ks.getLast hne ∈ ks := List.getLast_mem hne
    have hkLnot : ks.getLast hne ∉ c1.cache.map Prod.fst := by
      rw [hc1keys]
      intro hk
      rcases List.mem_cons.mp hk with h' | h'
      · exact hnd0 (h' ▸ hkLmem)
      · have hndks' := hndks
        rw [← hksdec] at hndks'
        have := List.nodup_append.mp hndks'
        exact this.2.2 h' (List.mem_singleton.mpr rfl)
    have hfull : c1.max_size ≤ c1.cache.length := by
      rw [hc1max, hc1len]
    have hset := LRUCache.set_cache_of_not_mem_full c1 now (ks.getLast hne) v ttl hkLnot hfull
    have hdrop : c1.cache.drop 1 =
        ks.dropLast.map (fun k => (k, (⟨v, now + ttl⟩ : CacheEntry V))) := by
      rw [hc1cache]
      rfl
    refine ⟨?_, ?_, ?_⟩
    · rw [hIA, hset, hdrop, List.map_append, List.map_map]
      have hcomp : (Prod.fst ∘ fun k : String => (k, (⟨v, now + ttl⟩ : CacheEntry V))) = id := rfl
      rw [hcomp, List.map_id]
      show ks.dropLast ++ [ks.getLast hne] = ks
      exact hksdec
    · rw [hIA, hset, List.length_append, List.length_singleton, hdrop, List.length_map,
        List.length_dropLast]
      omega
    · rw [hIA, hset, hdrop, List.map_append, List.map_map]
      have hcomp : (Prod.fst ∘ fun k : String => (k, (⟨v, now + ttl⟩ : CacheEntry V))) = id := rfl
      rw [hcomp, List.map_id]
      intro hk
      rcases List.mem_append.mp hk with h' | h'
      · exact hnd0 ((List.dropLast_sublist ks).subset h')
      · have hq : k0 = ks.getLast hne := by simpa using h'
        exact hnd0 (hq ▸ hkLmem)
  · intro V maxN ops hmax
    have h := runOps_invariant ops (LRUCache.empty V maxN)
      (by simp [LRUCache.wf, LRUCache.empty]) (by simp [LRUCache.empty]) (by simpa [LRUCache.empty])
    have hm : (runOps (LRUCache.empty V maxN) ops).max_size = maxN := h.2.2
    have hfin := h.2.1
    rw [hm] at hfin
    exact hfin

theorem spec_C4_lru_eviction_witness :
    ((⟨[((r"a"), ⟨0, 100⟩)], 1, 0, 0⟩ : LRUCache ℕ).set 0 (r"b") 1 50).cache.map Prod.fst =
      [(r"b")] ∧
    (insertAll (LRUCache.empty ℕ 2) 0 7 60 [(r"x"), (r"y"), (r"z")]).cache.map Prod.fst =
      [(r"y"), (r"z")] ∧
    (runOps (LRUCache.empty ℕ 1)
        [COp.set 0 (r"a") 5 60, COp.set 1 (r"b") 6 60]).cache.length ≤ 1 := by
  refine ⟨?_, ?_, ?_⟩
  · have h := ((spec_C4_lru_eviction.1 ℕ (⟨[((r"a"), ⟨0, 100⟩)], 1, 0, 0⟩ : LRUCache ℕ)
      0 (r"b") 1 50 (by simp [LRUCache.wf]) (by simp) (by norm_num)).2 (by decide))
    rw [h.1]
    rfl
  · exact (spec_C4_lru_eviction.2.1 ℕ 2 (r"x") [(r"y"), (r"z")] 0 7 60
      (by norm_num) (by decide) (by decide)).1
  · exact spec_C4_lru_eviction.2.2 ℕ 1
      [COp.set 0 (r"a") 5 60, COp.set 1 (r"b") 6 60] (by norm_num)

/-! ### `EnhancedRiotAPI._make_request` -/

theorem AdaptiveRateLimiter.acquire_wait_zero :
    ∀ (ts : List ℚ) (rl : AdaptiveRateLimiter) (p : Priority) (r : ℚ × AdaptiveRateLimiter),
    rl.acquire p ts = some r → r.1 = 0 := by
  intro ts
  induction ts with
  | nil =>
    intro rl p r h
    cases h
  | cons now rest ih =>
    intro rl p r h
    rw [AdaptiveRateLimiter.acquire] at h
    by_cases hg : (rl.tryAcquire p now).granted = true
    · rw [if_pos hg] at h
      cases h
      rfl
    · rw [if_neg hg] at h
      exact ih _ p r h

theorem LRUCache.get_hit (c : LRUCache V) (now : ℚ) (k : String)
    (p : String × CacheEntry V)
    (hf : c.cache.find? (fun q => decide (q.1 = k)) = some p)
    (hvis : now ≤ p.2.expires_at) :
    c.get now k = (some p.2.data,
      { c with cache := odMoveToEnd k c.cache, hits := c.hits + 1 }) := by
  have hexp : (p.2.is_expired now) = false := by
    simp [CacheEntry.is_expired, not_lt.mpr hvis]
  simp [LRUCache.get, hf, hexp]

theorem makeRequest_429_requeue (D : Type) (keyOf : ApiRequest → String) (now : ℚ)
    (acqTimes : List ℚ) (now2 : ℚ) (resp : HttpResponse D) (st : ClientState D)
    (req : ApiRequest) (cache1 : LRUCache D) (wait : ℚ) (rl1 : AdaptiveRateLimiter)
    (hget : st.cache.get now (keyOf req) = (none, cache1))
    (hacq : st.rl.acquire req.priority acqTimes = some (wait, rl1))
    (h429 : resp.status_code = 429) (hrc : req.retry_count < 3) :
    makeRequest keyOf now acqTimes now2 (some resp) st req =
      some ⟨⟨cache1, rl1.report_429 now2, st.total_requests + 1, st.failed_requests,
             st.queue ++
               [{ req with retry_count := req.retry_count + 1, priority := Priority.HIGH }]⟩,
            none, true, decide (0 < wait), [resp.retryAfter.getD 10]⟩ := by
  simp only [makeRequest]
  rw [hget]
  simp only
  rw [hacq]
  simp only
  rw [h429]
  simp [hrc]

theorem makeRequest_429_drop (D : Type) (keyOf : ApiRequest → String) (now : ℚ)
    (acqTimes : List ℚ) (now2 : ℚ) (resp : HttpResponse D) (st : ClientState D)
    (req : ApiRequest) (cache1 : LRUCache D) (wait : ℚ) (rl1 : AdaptiveRateLimiter)
    (hget : st.cache.get now (keyOf req) = (none, cache1))
    (hacq : st.rl.acquire req.priority acqTimes = some (wait, rl1))
    (h429 : resp.status_code = 429) (hrc : ¬ req.retry_count < 3) :
    makeRequest keyOf now acqTimes now2 (some resp) st req =
      some ⟨⟨cache1, rl1.report_429 now2, st.total_requests + 1, st.failed_requests,
             st.queue⟩,
            none, true, decide (0 < wait), [resp.retryAfter.getD 10]⟩ := by
  simp only [makeRequest]
  rw [hget]
  simp only
  rw [hacq]
  simp only
  rw [h429]
  simp [hrc]

theorem makeRequest_5xx_requeue (D : Type) (keyOf : ApiRequest → String) (now : ℚ)
    (acqTimes : List ℚ) (now2 : ℚ) (resp : HttpResponse D) (st : ClientState D)
    (req : ApiRequest) (cache1 : LRUCache D) (wait : ℚ) (rl1 : AdaptiveRateLimiter)
    (hget : st.cache.get now (keyOf req) = (none, cache1))
    (hacq : st.rl.acquire req.priority acqTimes = some (wait, rl1))
    (h5xx : 500 ≤ resp.status_code) (hrc : req.retry_count < 3) :
    makeRequest keyOf now acqTimes now2 (some resp) st req =
      some ⟨⟨cache1, rl1, st.total_requests + 1, st.failed_requests + 1,
             st.queue ++ [{ req with retry_count := req.retry_count + 1 }]⟩,
            none, true, decide (0 < wait), [(2 : ℚ) ^ req.retry_count]⟩ := by
  have h200 : ¬ resp.status_code = 200 := by omega
  have h429 : ¬ resp.status_code = 429 := by omega
  simp only [makeRequest]
  rw [hget]
  simp only
  rw [hacq]
  simp only
  rw [if_neg h200, if_neg h429, if_pos h5xx, if_pos hrc]

theorem makeRequest_5xx_drop (D : Type) (keyOf : ApiRequest → String) (now : ℚ)
    (acqTimes : List ℚ) (now2 : ℚ) (resp : HttpResponse D) (st : ClientState D)
    (req : ApiRequest) (cache1 : LRUCache D) (wait : ℚ) (rl1 : AdaptiveRateLimiter)
    (hget : st.cache.get now (keyOf req) = (none, cache1))
    (hacq : st.rl.acquire req.priority acqTimes = some (wait, rl1))
    (h5xx : 500 ≤ resp.status_code) (hrc : ¬ req.retry_count < 3) :
    makeRequest keyOf now acqTimes now2 (some resp) st req =
      some ⟨⟨cache1, rl1, st.total_requests + 1, st.failed_requests + 1, st.queue⟩,
            none, true, decide (0 < wait), [(2 : ℚ) ^ req.retry_count]⟩ := by
  have h200 : ¬ resp.status_code = 200 := by omega
  have h429 : ¬ resp.status_code = 429 := by omega
  simp only [makeRequest]
  rw [hget]
  simp only
  rw [hacq]
  simp only
  rw [if_neg h200, if_neg h429, if_pos h5xx, if_neg hrc]

/-- C9: `AdaptiveRateLimiter.acquire` returns `0` whenever it returns (the
source's only `return` is `return 0`; waiting happens by sleeping inside
the loop), and consequently the `wait_time > 0` reporting branch of
`_make_request` never runs. -/
theorem spec_C9_acquire_returns_zero :
    (∀ (ts : List ℚ) (rl : AdaptiveRateLimiter) (p : Priority)
        (r : ℚ × AdaptiveRateLimiter), rl.acquire p ts = some r → r.1 = 0) ∧
    (∀ (D : Type) (keyOf : ApiRequest → String) (now : ℚ) (acqTimes : List ℚ)
        (now2 : ℚ) (httpResult : Option (HttpResponse D)) (st : ClientState D)
        (req : ApiRequest) (out : MkOutcome D),
      makeRequest keyOf now acqTimes now2 httpResult st req = some out →
      out.waitReported = false) := by
  constructor
  · exact AdaptiveRateLimiter.acquire_wait_zero
  · intro D keyOf now acqTimes now2 httpResult st req out h
    simp only [makeRequest] at h
    rcases hget : st.cache.get now (keyOf req) with ⟨cached, cache1⟩
    rw [hget] at h
    cases cached with
    | some data =>
      simp only at h
      cases h
      rfl
    | none =>
      simp only at h
      rcases hacq : st.rl.acquire req.priority acqTimes with _ | ⟨wait, rl1⟩
      · rw [hacq] at h
        cases h
      · rw [hacq] at h
        have hw : wait = 0 :=
          AdaptiveRateLimiter.acquire_wait_zero acqTimes st.rl req.priority (wait, rl1) hacq
        subst hw
        simp only at h
        have hdec : decide ((0 : ℚ) < 0) = false := by norm_num
        rw [hdec] at h
        cases httpResult with
        | none =>
          simp only at h
          cases h
          rfl
        | some resp =>
          simp only at h
          split at h
          · cases h; rfl
          · split at h
            · split at h
              · cases h; rfl
              · cases h; rfl
            · split at h
              · split at h
                · cases h; rfl
                · cases h; rfl
              · cases h; rfl

/-- C10: when `_make_request` finds an unexpired cache entry for the
request's key, it returns the cached payload and leaves the rate limiter
state, the `total_requests`/`failed_requests` counters and the queue
untouched; no HTTP request is issued and no sleep happens. -/
theorem spec_C10_cache_hit_frame (D : Type) (keyOf : ApiRequest → String) (now : ℚ)
    (acqTimes : List ℚ) (now2 : ℚ) (httpResult : Option (HttpResponse D))
    (st : ClientState D) (req : ApiRequest) (p : String × CacheEntry D)
    (hf : st.cache.cache.find? (fun q => decide (q.1 = keyOf req)) = some p)
    (hvis : now ≤ p.2.expires_at) :
    (makeRequest keyOf now acqTimes now2 httpResult st req).map
        (fun o => (o.ret, o.st.rl, o.httpIssued, o.st.total_requests,
          o.st.failed_requests, o.st.queue, o.sleeps)) =
      some (some p.2.data, st.rl, false, st.total_requests, st.failed_requests,
        st.queue, []) := by
  have hget := LRUCache.get_hit st.cache now (keyOf req) p hf hvis
  simp only [makeRequest]
  rw [hget]
  simp only [Option.map]

theorem spec_C9_acquire_returns_zero_witness :
    (((AdaptiveRateLimiter.init 20 1 100 120 0.1).acquire Priority.NORMAL [0]).map Prod.fst) =
      some 0 ∧
    ((makeRequest (fun _ => (r"k")) 0 [] 0 (none : Option (HttpResponse ℕ))
        ⟨⟨[((r"k"), ⟨5, 100⟩)], 2000, 0, 0⟩, AdaptiveRateLimiter.init 20 1 100 120 0.1, 0, 0, []⟩
        ⟨(r"u"), Priority.NORMAL, 0, 0⟩).map (fun o => o.waitReported)) = some false := by
  constructor
  · rcases hacq : (AdaptiveRateLimiter.init 20 1 100 120 0.1).acquire Priority.NORMAL [0]
      with _ | r
    · norm_num [AdaptiveRateLimiter.acquire, AdaptiveRateLimiter.tryAcquire,
        AdaptiveRateLimiter.init, AdaptiveRateLimiter.newMult, AdaptiveRateLimiter.effShort,
        AdaptiveRateLimiter.effLong, List.dropWhile, Int.toNat,
        show Priority.NORMAL ≠ Priority.HIGH from fun h => Priority.noConfusion h] at hacq
      exact Option.noConfusion hacq
    · simp [spec_C9_acquire_returns_zero.1 [0] _ Priority.NORMAL r hacq]
  · rcases hmk : makeRequest (fun _ => (r"k")) 0 [] 0 (none : Option (HttpResponse ℕ))
        ⟨⟨[((r"k"), ⟨5, 100⟩)], 2000, 0, 0⟩, AdaptiveRateLimiter.init 20 1 100 120 0.1, 0, 0, []⟩
        ⟨(r"u"), Priority.NORMAL, 0, 0⟩ with _ | out
    · norm_num [makeRequest, LRUCache.get, List.find?, CacheEntry.is_expired,
        odMoveToEnd] at hmk
      exact Option.noConfusion hmk
    · simp [spec_C9_acquire_returns_zero.2 ℕ _ 0 [] 0 none _ _ out hmk]

theorem spec_C10_cache_hit_frame_witness :
    (makeRequest (fun _ => (r"k")) 0 [] 0 (none : Option (HttpResponse ℕ))
        ⟨⟨[((r"k"), ⟨5, 100⟩)], 2000, 0, 0⟩, AdaptiveRateLimiter.init 20 1 100 120 0.1, 3, 4,
          [⟨(r"q"), Priority.LOW, 0, 0⟩]⟩
        ⟨(r"u"), Priority.NORMAL, 0, 0⟩).map
      (fun o => (o.ret, o.st.rl, o.httpIssued, o.st.total_requests,
        o.st.failed_requests, o.st.queue, o.sleeps)) =
      some (some 5, AdaptiveRateLimiter.init 20 1 100 120 0.1, false, 3, 4,
        [⟨(r"q"), Priority.LOW, 0, 0⟩], []) :=
  spec_C10_cache_hit_frame ℕ (fun _ => (r"k")) 0 [] 0 none _ _ ((r"k"), ⟨5, 100⟩)
    (by norm_num [List.find?]) (by norm_num)

/-- C3 (counterexample): the claim states that on a 5xx response with
`retry_count < 3` the request is re-enqueued with priority escalated to
HIGH; at this concrete input (fresh client, NORMAL-priority request,
response 500) the re-enqueued request still has priority NORMAL. -/
theorem spec_C3_counterexample :
    (makeRequest (fun _ => (r"k")) 0 [0] 0 (some (⟨500, none, 0⟩ : HttpResponse ℕ))
        ⟨LRUCache.empty ℕ 2000, AdaptiveRateLimiter.init 20 1 100 120 0.1, 0, 0, []⟩
        ⟨(r"u"), Priority.NORMAL, 0, 0⟩).map
      (fun o => o.st.queue.map ApiRequest.priority) = some [Priority.NORMAL] := by
  norm_num [makeRequest, LRUCache.get, LRUCache.empty, List.find?,
    AdaptiveRateLimiter.acquire, AdaptiveRateLimiter.tryAcquire, AdaptiveRateLimiter.init,
    AdaptiveRateLimiter.newMult, AdaptiveRateLimiter.effShort, AdaptiveRateLimiter.effLong,
    List.dropWhile, Int.toNat,
    show Priority.NORMAL ≠ Priority.HIGH from fun h => Priority.noConfusion h]

/-- C3 (amended): in the queued path, for a request with `retry_count < 3`,
a 429 response re-enqueues it with `retry_count + 1` and priority escalated
to HIGH, while a 5xx response re-enqueues it with `retry_count + 1` and its
priority UNCHANGED — the source escalates priority only in the 429
branch. -/
theorem spec_C3_requeue_amended (D : Type) (keyOf : ApiRequest → String) (now : ℚ)
    (acqTimes : List ℚ) (now2 : ℚ) (resp : HttpResponse D) (st : ClientState D)
    (req : ApiRequest) (cache1 : LRUCache D) (wait : ℚ) (rl1 : AdaptiveRateLimiter)
    (hget : st.cache.get now (keyOf req) = (none, cache1))
    (hacq : st.rl.acquire req.priority acqTimes = some (wait, rl1))
    (hrc : req.retry_count < 3) :
    (resp.status_code = 429 →
      (makeRequest keyOf now acqTimes now2 (some resp) st req).map
          (fun o => (o.st.queue, o.ret)) =
        some (st.queue ++
          [{ req with retry_count := req.retry_count + 1, priority := Priority.HIGH }], none)) ∧
    (500 ≤ resp.status_code →
      (makeRequest keyOf now acqTimes now2 (some resp) st req).map
          (fun o => (o.st.queue, o.ret)) =
        some (st.queue ++ [{ req with retry_count := req.retry_count + 1 }], none)) := by
  constructor
  · intro h429
    rw [makeRequest_429_requeue D keyOf now acqTimes now2 resp st req cache1 wait rl1
      hget hacq h429 hrc]
    rfl
  · intro h5xx
    rw [makeRequest_5xx_requeue D keyOf now acqTimes now2 resp st req cache1 wait rl1
      hget hacq h5xx hrc]
    rfl

theorem spec_C3_requeue_amended_witness :
    ((makeRequest (fun _ => (r"k")) 0 [0] 0 (some (⟨429, some 1, 0⟩ : HttpResponse ℕ))
        ⟨LRUCache.empty ℕ 2000, AdaptiveRateLimiter.init 20 1 100 120 0.1, 0, 0, []⟩
        ⟨(r"u"), Priority.NORMAL, 0, 0⟩).map (fun o => (o.st.queue, o.ret))) =
      some ([⟨(r"u"), Priority.HIGH, 0, 1⟩], none) ∧
    ((makeRequest (fun _ => (r"k")) 0 [0] 0 (some (⟨500, none, 0⟩ : HttpResponse ℕ))
        ⟨LRUCache.empty ℕ 2000, AdaptiveRateLimiter.init 20 1 100 120 0.1, 0, 0, []⟩
        ⟨(r"u"), Priority.NORMAL, 0, 0⟩).map (fun o => (o.st.queue, o.ret))) =
      some ([⟨(r"u"), Priority.NORMAL, 0, 1⟩], none) := by
  have hget0 : (LRUCache.empty ℕ 2000).get 0 (r"k") =
      (none, ⟨[], 2000, 0, 1⟩) := by
    norm_num [LRUCache.get, LRUCache.empty, List.find?]
  have hacq0 : (AdaptiveRateLimiter.init 20 1 100 120 0.1).acquire Priority.NORMAL [0] =
      some (0, ⟨20, 1, 100, 120, 0.1, [0], [0], 0, 1, 0⟩) := by
    norm_num [AdaptiveRateLimiter.acquire, AdaptiveRateLimiter.tryAcquire,
      AdaptiveRateLimiter.init, AdaptiveRateLimiter.newMult, AdaptiveRateLimiter.effShort,
      AdaptiveRateLimiter.effLong, List.dropWhile, Int.toNat,
      show Priority.NORMAL ≠ Priority.HIGH from fun h => Priority.noConfusion h]
  constructor
  · exact (spec_C3_requeue_amended ℕ (fun _ => (r"k")) 0 [0] 0 ⟨429, some 1, 0⟩
      ⟨LRUCache.empty ℕ 2000, AdaptiveRateLimiter.init 20 1 100 120 0.1, 0, 0, []⟩
      ⟨(r"u"), Priority.NORMAL, 0, 0⟩ ⟨[], 2000, 0, 1⟩ 0
      ⟨20, 1, 100, 120, 0.1, [0], [0], 0, 1, 0⟩ hget0 hacq0 (by norm_num)).1 rfl
  · exact (spec_C3_requeue_amended ℕ (fun _ => (r"k")) 0 [0] 0 ⟨500, none, 0⟩
      ⟨LRUCache.empty ℕ 2000, AdaptiveRateLimiter.init 20 1 100 120 0.1, 0, 0, []⟩
      ⟨(r"u"), Priority.NORMAL, 0, 0⟩ ⟨[], 2000, 0, 1⟩ 0
      ⟨20, 1, 100, 120, 0.1, [0], [0], 0, 1, 0⟩ hget0 hacq0 (by norm_num)).2 (by norm_num)

/-- C8 (counterexample): the claim states a 429-dropped request (at the
3-retry maximum) is reported as failed; at this concrete input the request
is dropped (queue stays empty, None returned) but `failed_requests` stays
at its prior value 7 — the 429 branch never increments it. -/
theorem spec_C8_counterexample :
    (makeRequest (fun _ => (r"k")) 0 [0] 0 (some (⟨429, some 1, 0⟩ : HttpResponse ℕ))
        ⟨LRUCache.empty ℕ 2000, AdaptiveRateLimiter.init 20 1 100 120 0.1, 0, 7, []⟩
        ⟨(r"u"), Priority.NORMAL, 0, 3⟩).map
      (fun o => (o.st.queue, o.st.failed_requests, o.ret)) = some ([], 7, none) := by
  norm_num [makeRequest, LRUCache.get, LRUCache.empty, List.find?,
    AdaptiveRateLimiter.acquire, AdaptiveRateLimiter.tryAcquire, AdaptiveRateLimiter.init,
    AdaptiveRateLimiter.newMult, AdaptiveRateLimiter.effShort, AdaptiveRateLimiter.effLong,
    List.dropWhile, Int.toNat,
    show Priority.NORMAL ≠ Priority.HIGH from fun h => Priority.noConfusion h]

/-- C8 (amended): a 429 response for a request whose retry_count has
reached 3 is dropped (not re-enqueued) and `_make_request` returns None
with `total_requests` incremented, but `failed_requests` is NOT
incremented — the 429 branch never counts failures; a 5xx response at the
maximum is likewise dropped and IS counted as failed. -/
theorem spec_C8_drop_at_max_amended (D : Type) (keyOf : ApiRequest → String) (now : ℚ)
    (acqTimes : List ℚ) (now2 : ℚ) (st : ClientState D)
    (req : ApiRequest) (cache1 : LRUCache D) (wait : ℚ) (rl1 : AdaptiveRateLimiter)
    (hget : st.cache.get now (keyOf req) = (none, cache1))
    (hacq : st.rl.acquire req.priority acqTimes = some (wait, rl1))
    (hrc : ¬ req.retry_count < 3) :
    (∀ resp : HttpResponse D, resp.status_code = 429 →
      (makeRequest keyOf now acqTimes now2 (some resp) st req).map
          (fun o => (o.st.queue, o.ret, o.st.failed_requests, o.st.total_requests)) =
        some (st.queue, none, st.failed_requests, st.total_requests + 1)) ∧
    (∀ resp : HttpResponse D, 500 ≤ resp.status_code →
      (makeRequest keyOf now acqTimes now2 (some resp) st req).map
          (fun o => (o.st.queue, o.st.failed_requests)) =
        some (st.queue, st.failed_requests + 1)) := by
  constructor
  · intro resp h429
    rw [makeRequest_429_drop D keyOf now acqTimes now2 resp st req cache1 wait rl1
      hget hacq h429 hrc]
    rfl
  · intro resp h5xx
    rw [makeRequest_5xx_drop D keyOf now acqTimes now2 resp st req cache1 wait rl1
      hget hacq h5xx hrc]
    rfl

theorem spec_C8_drop_at_max_amended_witness :
    ((makeRequest (fun _ => (r"k")) 0 [0] 0 (some (⟨429, some 1, 0⟩ : HttpResponse ℕ))
        ⟨LRUCache.empty ℕ 2000, AdaptiveRateLimiter.init 20 1 100 120 0.1, 0, 7, []⟩
        ⟨(r"u"), Priority.NORMAL, 0, 3⟩).map
      (fun o => (o.st.queue, o.ret, o.st.failed_requests, o.st.total_requests))) =
      some ([], none, 7, 1) ∧
    ((makeRequest (fun _ => (r"k")) 0 [0] 0 (some (⟨503, none, 0⟩ : HttpResponse ℕ))
        ⟨LRUCache.empty ℕ 2000, AdaptiveRateLimiter.init 20 1 100 120 0.1, 0, 7, []⟩
        ⟨(r"u"), Priority.NORMAL, 0, 3⟩).map
      (fun o => (o.st.queue, o.st.failed_requests))) = some ([], 8) := by
  have hget0 : (LRUCache.empty ℕ 2000).get 0 (r"k") =
      (none, ⟨[], 2000, 0, 1⟩) := by
    norm_num [LRUCache.get, LRUCache.empty, List.find?]
  have hacq0 : (AdaptiveRateLimiter.init 20 1 100 120 0.1).acquire Priority.NORMAL [0] =
      some (0, ⟨20, 1, 100, 120, 0.1, [0], [0], 0, 1, 0⟩) := by
    norm_num [AdaptiveRateLimiter.acquire, AdaptiveRateLimiter.tryAcquire,
      AdaptiveRateLimiter.init, AdaptiveRateLimiter.newMult, AdaptiveRateLimiter.effShort,
      AdaptiveRateLimiter.effLong, List.dropWhile, Int.toNat,
      show Priority.NORMAL ≠ Priority.HIGH from fun h => Priority.noConfusion h]
  constructor
  · exact (spec_C8_drop_at_max_amended ℕ (fun _ => (r"k")) 0 [0] 0
      ⟨LRUCache.empty ℕ 2000, AdaptiveRateLimiter.init 20 1 100 120 0.1, 0, 7, []⟩
      ⟨(r"u"), Priority.NORMAL, 0, 3⟩ ⟨[], 2000, 0, 1⟩ 0
      ⟨20, 1, 100, 120, 0.1, [0], [0], 0, 1, 0⟩ hget0 hacq0 (by norm_num)).1
      ⟨429, some 1, 0⟩ rfl
  · exact (spec_C8_drop_at_max_amended ℕ (fun _ => (r"k")) 0 [0] 0
      ⟨LRUCache.empty ℕ 2000, AdaptiveRateLimiter.init 20 1 100 120 0.1, 0, 7, []⟩
      ⟨(r"u"), Priority.NORMAL, 0, 3⟩ ⟨[], 2000, 0, 1⟩ 0
      ⟨20, 1, 100, 120, 0.1, [0], [0], 0, 1, 0⟩ hget0 hacq0 (by norm_num)).2
      ⟨503, none, 0⟩ (by norm_num)
